import Mathlib

/-!
Verification development for the circlefin solana-gateway-contracts repository.

The repository contains two Solana programs, `gateway-wallet` and
`gateway-minter` (distinct `declare_id!` values), plus a `gateway-shared`
crate.  This file gives a shallow embedding of the components that the
checked properties are about:

* the `GatewayDeposit` balance state machine (`reduce_balance`,
  `initiate_withdrawal`, `withdraw` / `complete_withdrawal`)
  from `programs/gateway-wallet/src/state.rs` and
  `instructions/{initiate_withdrawal,withdrawal}.rs`;
* the delegate records and their transitions
  (`add_delegate`, `remove_delegate`, `was_ever_authorized_for_balance`,
  `validate_signer_authorization`);
* the used-transfer-spec-hash replay registry
  (`is_transfer_spec_hash_used`, `create_used_transfer_spec_hash_account`)
  from `shared/src/lib.rs`, as used by `gateway_burn` and `gateway_mint`;
* the EVM signature recovery routine `recover_evm_signer`
  (with the secp256k1 / keccak primitives as parameters);
* the Ed25519 companion-proof check `verify_user_signature` together with
  `Ed25519InstructionData`;
* the `MintAttestation` byte parser / iterator and
  `MintAttestationStruct::encode_attestation` from
  `programs/gateway-minter/src/attestation.rs`;
* the `BurnData` byte parser from `programs/gateway-wallet/src/burn_data.rs`.

Machine integers are modelled as `Nat`; wrapping casts (`as u32`) are made
explicit with `% 2 ^ 32`.  Byte buffers are `List Nat`.  Rust `Result` is
`Except`; a Rust slice access whose bounds are violated would panic, so each
read helper performs an explicit bounds check and reports a violation with a
distinguished `panic`-marker error constructor, letting us prove that the
marker is unreachable.
-/

/-! ## Byte-level utilities -/

/-- Big-endian byte encoding of the lowest `n` bytes of `v`
(this is exactly what `to_be_bytes` of a wrapped `as uN` cast produces). -/
def beBytes : Nat → Nat → List Nat
  | 0, _ => []
  | n + 1, v => beBytes n (v / 256) ++ [v % 256]

/-- Big-endian interpretation of a byte list (`uN::from_be_bytes`). -/
def fromBeBytes (l : List Nat) : Nat :=
  l.foldl (fun acc b => acc * 256 + b) 0

theorem beBytes_length (n v : Nat) : (beBytes n v).length = n := by
  induction n generalizing v with
  | zero => rfl
  | succ n ih => simp [beBytes, ih]

theorem fromBeBytes_beBytes (n v : Nat) : fromBeBytes (beBytes n v) = v % 256 ^ n := by
  induction n generalizing v with
  | zero => simp [beBytes, fromBeBytes, Nat.mod_one]
  | succ n ih =>
      have h1 : fromBeBytes (beBytes n (v / 256) ++ [v % 256])
          = fromBeBytes (beBytes n (v / 256)) * 256 + v % 256 := by
        simp [fromBeBytes, List.foldl_append]
      have h2 : v % 256 ^ (n + 1) = v % 256 + 256 * (v / 256 % 256 ^ n) := by
        rw [pow_succ, mul_comm (256 ^ n) 256, Nat.mod_mul]
      simp only [beBytes, h1, ih, h2]
      ring

/-- Guarded slice: `some` of `n` bytes of `data` starting at `i` when the
range is inside the buffer, `none` otherwise (a Rust `data[i..i+n]` access
with the bound violated panics, which the `none` case represents). -/
def sliceN (data : List Nat) (i n : Nat) : Option (List Nat) :=
  if i + n ≤ data.length then some ((data.drop i).take n) else none

theorem sliceN_self (xs : List Nat) : sliceN xs 0 xs.length = some xs := by
  simp [sliceN]

theorem sliceN_isSome (data : List Nat) (i n : Nat) :
    (sliceN data i n).isSome ↔ i + n ≤ data.length := by
  unfold sliceN
  by_cases h : i + n ≤ data.length <;> simp [h]

theorem drop_append_big (pre rest : List Nat) (i : Nat) :
    (pre ++ rest).drop (pre.length + i) = rest.drop i := by
  induction pre with
  | nil => simp
  | cons x xs ih => simp [Nat.succ_add, ih]

/-- Slicing past an initial chunk slices the remainder. -/
theorem sliceN_append (pre rest : List Nat) (i n : Nat) :
    sliceN (pre ++ rest) (pre.length + i) n = sliceN rest i n := by
  unfold sliceN
  rw [drop_append_big]
  simp [Nat.add_assoc]

/-- General skipping form: reading at an offset `j` past a chunk of length
`≤ j` reads the remainder at `j - length`. -/
theorem sliceN_skip (c rest : List Nat) (j n : Nat) (h : c.length ≤ j) :
    sliceN (c ++ rest) j n = sliceN rest (j - c.length) n := by
  have hj : j = c.length + (j - c.length) := by omega
  rw [hj, sliceN_append]
  simp

theorem sliceN_here (c rest : List Nat) (n : Nat) (h : c.length = n) :
    sliceN (c ++ rest) 0 n = some c := by
  subst h
  unfold sliceN
  simp [List.take_append]

/-- Whether an `Except` computation succeeded (`Result::is_ok`). -/
def exceptOk {e a : Type} : Except e a → Bool
  | .ok _ => true
  | .error _ => false

@[simp] theorem exceptOk_ok {e a : Type} (x : a) :
    exceptOk (Except.ok (ε := e) x) = true := rfl

@[simp] theorem exceptOk_error {e a : Type} (x : e) :
    exceptOk (Except.error (α := a) x) = false := rfl

/-! ## GatewayWallet balance ledger (`programs/gateway-wallet/src/state.rs`) -/

namespace GatewayWallet

/-- Error codes of the gateway-wallet program that the embedded fragments can
produce (`programs/gateway-wallet/src/error.rs`).  `panicOOB` is not a program
error: it marks a Rust slice access or unsigned subtraction that would panic,
and the safety theorems show it is unreachable. -/
inductive WErr where
  | invalidBalanceReductionAmount
  | invalidWithdrawalAmount
  | tokenNotSupported
  | insufficientDepositBalance
  | noWithdrawalInProgress
  | withdrawalDelayNotElapsed
  | invalidDelegate
  | cannotDelegateToSelf
  | accountDenylisted
  | invalidDelegateAccount
  | delegateDepositorMismatch
  | delegateSignerMismatch
  | delegateSignerNotAuthorized
  | transferSpecHashAlreadyUsed
  | malformedBurnData
  | previousInstructionNotEd25519Program
  | invalidEd25519InstructionData
  | burnIntentLengthMismatch
  | invalidBurnIntentMessagePrefixErr
  | burnIntentMagicMismatch
  | transferSpecMagicMismatch
  | invalidBurnIntentValue
  | invalidU64HighBytes
  | panicOOB
  deriving DecidableEq, Repr

/-- `GatewayDeposit` account state (`state.rs`).  Pubkeys are abstracted as
`Nat`; the balance fields are `u64` values carried as `Nat`. -/
structure GatewayDeposit where
  bump : Nat
  depositor : Nat
  tokenMint : Nat
  availableAmount : Nat
  withdrawingAmount : Nat
  withdrawalBlock : Nat
  deriving DecidableEq, Repr

/-- `GatewayDeposit::reduce_balance` (`state.rs`): deduct `value` from the
available balance first, then from the withdrawing balance, returning the
pair of deductions together with the mutated deposit. -/
def reduce_balance (d : GatewayDeposit) (value : Nat) :
    Except WErr ((Nat × Nat) × GatewayDeposit) :=
  if value = 0 then
    .error .invalidBalanceReductionAmount
  else if value ≤ d.availableAmount then
    .ok ((value, 0), { d with availableAmount := d.availableAmount - value })
  else if value - d.availableAmount ≤ d.withdrawingAmount then
    .ok ((d.availableAmount, value - d.availableAmount),
      { d with availableAmount := 0,
               withdrawingAmount := d.withdrawingAmount - (value - d.availableAmount) })
  else
    .ok ((d.availableAmount, d.withdrawingAmount),
      { d with availableAmount := 0, withdrawingAmount := 0 })

/-- `GatewayDeposit::initiate_withdrawal` (`state.rs`), with the
`gateway_wallet.is_token_supported` membership test abstracted to a boolean
and the clock slot passed explicitly.  Returns the triple
`(available, withdrawing, withdrawal_block)` reported by the instruction,
together with the mutated deposit. -/
def initiate_withdrawal (d : GatewayDeposit) (amount withdrawalDelay : Nat)
    (tokenSupported : Bool) (currentSlot : Nat) :
    Except WErr ((Nat × Nat × Nat) × GatewayDeposit) :=
  if amount = 0 then
    .error .invalidWithdrawalAmount
  else if !tokenSupported then
    .error .tokenNotSupported
  else if amount > d.availableAmount then
    .error .insufficientDepositBalance
  else
    .ok ((d.availableAmount - amount, d.withdrawingAmount + amount,
          currentSlot + withdrawalDelay),
      { d with availableAmount := d.availableAmount - amount,
               withdrawingAmount := d.withdrawingAmount + amount,
               withdrawalBlock := currentSlot + withdrawalDelay })

/-- The `withdraw` instruction handler (`instructions/withdrawal.rs`) composed
with `GatewayDeposit::complete_withdrawal` (`state.rs`): requires a pending
withdrawal and an elapsed delay, then transfers the entire withdrawing amount
and zeroes `withdrawing_amount` and `withdrawal_block`.  Returns the amount
transferred and the mutated deposit. -/
def withdraw (d : GatewayDeposit) (currentSlot : Nat) :
    Except WErr (Nat × GatewayDeposit) :=
  if d.withdrawingAmount = 0 then
    .error .noWithdrawalInProgress
  else if currentSlot < d.withdrawalBlock then
    .error .withdrawalDelayNotElapsed
  else
    .ok (d.withdrawingAmount,
      { d with withdrawingAmount := 0, withdrawalBlock := 0 })

/-- Result of the settlement tail of `gateway_burn`
(`instructions/gateway_burn.rs` lines 287-330). -/
structure BurnSettlement where
  fromAvailable : Nat
  fromWithdrawing : Nat
  actualFeeCharged : Nat
  burnAmount : Nat
  deposit : GatewayDeposit
  deriving DecidableEq, Repr

/-- Settlement tail of `gateway_burn`: reduce the deposit by `value + fee`,
charge as fee the deducted amount in excess of `value`
(`saturating_sub`), and burn the rest. -/
def gateway_burn_settlement (d : GatewayDeposit) (value fee : Nat) :
    Except WErr BurnSettlement :=
  match reduce_balance d (value + fee) with
  | .error e => .error e
  | .ok ((fromAvailable, fromWithdrawing), d') =>
    .ok { fromAvailable := fromAvailable, fromWithdrawing := fromWithdrawing,
          actualFeeCharged := (fromAvailable + fromWithdrawing) - value,
          burnAmount := (fromAvailable + fromWithdrawing) -
            ((fromAvailable + fromWithdrawing) - value),
          deposit := d' }

/-! ## Delegate records (`state.rs`, `instructions/add_delegate.rs`,
`instructions/remove_delegate.rs`, `utils.rs`) -/

/-- `DelegateStatus` (`state.rs`). -/
inductive DelegateStatus where
  | unauthorized
  | authorized
  | revoked
  deriving DecidableEq, Repr

/-- `GatewayDelegate` account state (`state.rs`). -/
structure GatewayDelegate where
  bump : Nat
  status : DelegateStatus
  closeableAtBlock : Nat
  token : Nat
  depositor : Nat
  delegate : Nat
  deriving DecidableEq, Repr

/-- `GatewayDelegate::was_ever_authorized_for_balance` (`state.rs`):
the depositor itself always passes; otherwise the stored status must not be
`Unauthorized` (so both `Authorized` and `Revoked` pass). -/
def was_ever_authorized_for_balance (rec : GatewayDelegate)
    (depositor addr : Nat) : Bool :=
  if addr = depositor then true
  else decide (rec.status ≠ .unauthorized)

/-- `validate_signer_authorization` (`utils.rs`): the depositor is always
authorized for its own balance; a different signer needs a supplied delegate
account whose `depositor` and `delegate` fields match and that was ever
authorized. -/
def validate_signer_authorization (sourceSigner sourceDepositor : Nat)
    (delegateAccount : Option GatewayDelegate) : Except WErr Unit :=
  if sourceSigner = sourceDepositor then
    .ok ()
  else
    match delegateAccount with
    | none => .error .invalidDelegateAccount
    | some rec =>
      if rec.depositor ≠ sourceDepositor then
        .error .delegateDepositorMismatch
      else if rec.delegate ≠ sourceSigner then
        .error .delegateSignerMismatch
      else if !was_ever_authorized_for_balance rec sourceDepositor sourceSigner then
        .error .delegateSignerNotAuthorized
      else
        .ok ()

/-- The `add_delegate` handler (`instructions/add_delegate.rs`) restricted to
its effect on the delegate record's status.  The account is `init_if_needed`,
so `st` is the pre-existing status (`Unauthorized` for a fresh account).  On
success the handler stores `DelegateStatus::Authorized` unconditionally. -/
def add_delegate (delegate depositor : Nat)
    (depositorDenylisted delegateDenylisted tokenSupported : Bool)
    (st : DelegateStatus) : Except WErr DelegateStatus :=
  if delegate = 0 then
    .error .invalidDelegate
  else if delegate = depositor then
    .error .cannotDelegateToSelf
  else if depositorDenylisted then
    .error .accountDenylisted
  else if delegateDenylisted then
    .error .accountDenylisted
  else if !tokenSupported then
    .error .tokenNotSupported
  else
    .ok .authorized

/-- The `remove_delegate` handler (`instructions/remove_delegate.rs`)
restricted to its effect on the delegate record's status: `Unauthorized` and
`Revoked` records are left untouched, an `Authorized` record becomes
`Revoked`. -/
def remove_delegate (delegate : Nat)
    (depositorDenylisted tokenSupported : Bool)
    (st : DelegateStatus) : Except WErr DelegateStatus :=
  if delegate = 0 then
    .error .invalidDelegate
  else if depositorDenylisted then
    .error .accountDenylisted
  else if !tokenSupported then
    .error .tokenNotSupported
  else if st = .unauthorized ∨ st = .revoked then
    .ok st
  else
    .ok .revoked

end GatewayWallet


namespace GatewayWallet

/-- Helper: everything a successful `reduce_balance` guarantees about the
deductions and the post-state. -/
theorem reduce_balance_ok (d : GatewayDeposit) (value fa fw : Nat)
    (d' : GatewayDeposit) (h : reduce_balance d value = .ok ((fa, fw), d')) :
    fa + fw = min value (d.availableAmount + d.withdrawingAmount) ∧
    fa ≤ d.availableAmount ∧ fw ≤ d.withdrawingAmount ∧
    d'.availableAmount = d.availableAmount - fa ∧
    d'.withdrawingAmount = d.withdrawingAmount - fw ∧
    d'.withdrawalBlock = d.withdrawalBlock := by
  unfold reduce_balance at h
  split_ifs at h with h0 h1 h2 <;>
    simp only [Except.ok.injEq, Prod.mk.injEq] at h <;>
    obtain ⟨⟨rfl, rfl⟩, rfl⟩ := h <;>
    refine ⟨?_, ?_, ?_, ?_, ?_, ?_⟩ <;> dsimp only <;> omega

/-- Helper: `reduce_balance` fails exactly on a zero value, and then with
`InvalidBalanceReductionAmount`. -/
theorem reduce_balance_error (d : GatewayDeposit) (value : Nat) :
    (value = 0 → reduce_balance d value = .error .invalidBalanceReductionAmount) ∧
    (value ≠ 0 → exceptOk (reduce_balance d value) = true) := by
  constructor
  · intro h; simp [reduce_balance, h]
  · intro h
    unfold reduce_balance
    rw [if_neg h]
    split_ifs <;> rfl

/-- Claim C4: `reduce_balance(value)` fails (with
`InvalidBalanceReductionAmount`) iff `value = 0`; otherwise it deducts from
the available balance first and then from the withdrawing balance, the
returned pair sums to `min value (available + withdrawing)`, and it never
fails on a shortfall; with available 100 and withdrawing 80,
`reduce_balance 150` returns `(100, 50)` and leaves available 0 and
withdrawing 30. -/
theorem c4_reduce_balance (d : GatewayDeposit) (value : Nat) :
    (value = 0 → reduce_balance d value = .error .invalidBalanceReductionAmount) ∧
    (value ≠ 0 → exceptOk (reduce_balance d value) = true) ∧
    (∀ fa fw d', reduce_balance d value = .ok ((fa, fw), d') →
      fa + fw = min value (d.availableAmount + d.withdrawingAmount) ∧
      fa ≤ d.availableAmount ∧ fw ≤ d.withdrawingAmount ∧
      d'.availableAmount = d.availableAmount - fa ∧
      d'.withdrawingAmount = d.withdrawingAmount - fw) ∧
    reduce_balance ⟨0, 0, 0, 100, 80, 0⟩ 150 = .ok ((100, 50), ⟨0, 0, 0, 0, 30, 0⟩) := by
  refine ⟨(reduce_balance_error d value).1, (reduce_balance_error d value).2, ?_, rfl⟩
  intro fa fw d' h
  have := reduce_balance_ok d value fa fw d' h
  tauto

/-- Witness for C4 at concrete inputs: the zero-value failure and a
successful shortfall reduction, obtained by applying the theorem at
a concrete deposit. -/
theorem c4_reduce_balance_witness :
    reduce_balance ⟨0, 0, 0, 5, 5, 0⟩ 0 = .error .invalidBalanceReductionAmount ∧
    exceptOk (reduce_balance ⟨0, 0, 0, 5, 5, 0⟩ 20) = true ∧
    (100 : Nat) + 50 = min 150 (100 + 80) := by
  refine ⟨(c4_reduce_balance ⟨0, 0, 0, 5, 5, 0⟩ 0).1 rfl,
    (c4_reduce_balance ⟨0, 0, 0, 5, 5, 0⟩ 20).2.1 (by decide), ?_⟩
  exact ((c4_reduce_balance ⟨0, 0, 0, 100, 80, 0⟩ 150).2.2.1 100 50 ⟨0, 0, 0, 0, 30, 0⟩
    (c4_reduce_balance ⟨0, 0, 0, 100, 80, 0⟩ 150).2.2.2).1

/-- Claim C5: `initiate_withdrawal` (with the token supported) requires
`0 < amount ≤ available`, moves the amount from available to withdrawing
additively, and sets `withdrawal_block = current_slot + delay` for the
combined total; from the resulting state, `withdraw` fails with
`WithdrawalDelayNotElapsed` strictly before `withdrawal_block` and at any
slot `≥ withdrawal_block` pays out the entire withdrawing amount and zeroes
both `withdrawing_amount` and `withdrawal_block`.  Concretely, initiating 50
at slot 1000 with delay 10 sets the block to 1010; completion fails at 1009
and succeeds at 1010. -/
theorem c5_withdrawal_timing (d : GatewayDeposit) (amount delay slot : Nat) :
    (exceptOk (initiate_withdrawal d amount delay true slot) = true ↔
      0 < amount ∧ amount ≤ d.availableAmount) ∧
    (∀ t d', initiate_withdrawal d amount delay true slot = .ok (t, d') →
      d'.availableAmount = d.availableAmount - amount ∧
      d'.withdrawingAmount = d.withdrawingAmount + amount ∧
      d'.withdrawalBlock = slot + delay ∧
      (∀ h, h < slot + delay → withdraw d' h = .error .withdrawalDelayNotElapsed) ∧
      (∀ h, slot + delay ≤ h → withdraw d' h =
        .ok (d.withdrawingAmount + amount,
          { d' with withdrawingAmount := 0, withdrawalBlock := 0 }))) ∧
    initiate_withdrawal ⟨1, 2, 3, 60, 0, 0⟩ 50 10 true 1000 =
      .ok ((10, 50, 1010), ⟨1, 2, 3, 10, 50, 1010⟩) ∧
    withdraw ⟨1, 2, 3, 10, 50, 1010⟩ 1009 = .error .withdrawalDelayNotElapsed ∧
    withdraw ⟨1, 2, 3, 10, 50, 1010⟩ 1010 = .ok (50, ⟨1, 2, 3, 10, 0, 0⟩) := by
  refine ⟨?_, ?_, rfl, rfl, rfl⟩
  · unfold initiate_withdrawal
    split_ifs with h0 h1 h2
    · simp only [exceptOk_error, Bool.false_eq_true, false_iff]
      omega
    · simp at h1
    · simp only [exceptOk_error, Bool.false_eq_true, false_iff]
      omega
    · simp only [exceptOk_ok, true_iff]
      omega
  · intro t d' h
    unfold initiate_withdrawal at h
    split_ifs at h with h0 h1
    simp only [Except.ok.injEq, Prod.mk.injEq] at h
    obtain ⟨-, rfl⟩ := h
    refine ⟨rfl, rfl, rfl, ?_, ?_⟩
    · intro ht hlt
      unfold withdraw
      rw [if_neg (by simp; omega), if_pos (by simpa using hlt)]
    · intro ht hge
      unfold withdraw
      rw [if_neg (by simp; omega), if_neg (by simp; omega)]

/-- Witness for C5 at concrete inputs: the example of the claim, run through
the general theorem. -/
theorem c5_withdrawal_timing_witness :
    withdraw ⟨1, 2, 3, 10, 50, 1010⟩ 1009 = .error .withdrawalDelayNotElapsed ∧
    withdraw ⟨1, 2, 3, 10, 50, 1010⟩ 1011 =
      .ok (50, ⟨1, 2, 3, 10, 0, 0⟩) := by
  have h := (c5_withdrawal_timing ⟨1, 2, 3, 60, 0, 0⟩ 50 10 1000).2.1
    (10, 50, 1010) ⟨1, 2, 3, 10, 50, 1010⟩ rfl
  exact ⟨h.2.2.2.1 1009 (by decide), h.2.2.2.2 1011 (by decide)⟩

/-- Claim C10: every successful `gateway_burn` settlement conserves custody:
`burn_amount + actual_fee_charged` equals exactly the amount deducted from
the deposit, the fee actually charged never exceeds the declared fee, and on
a shortfall the deducted amount funds the burned value first (the fee is
reduced down to zero before the value is). -/
theorem c10_burn_settlement (d : GatewayDeposit) (value fee : Nat)
    (r : BurnSettlement) (h : gateway_burn_settlement d value fee = .ok r) :
    r.burnAmount + r.actualFeeCharged = r.fromAvailable + r.fromWithdrawing ∧
    r.actualFeeCharged ≤ fee ∧
    r.burnAmount = min (r.fromAvailable + r.fromWithdrawing) value ∧
    r.actualFeeCharged = (r.fromAvailable + r.fromWithdrawing) - value := by
  unfold gateway_burn_settlement at h
  cases hr : reduce_balance d (value + fee) with
  | error e => rw [hr] at h; exact absurd h (by simp)
  | ok p =>
      obtain ⟨⟨fa, fw⟩, d'⟩ := p
      rw [hr] at h
      simp only [Except.ok.injEq] at h
      subst h
      obtain ⟨hs1, hs2, hs3, hs4, hs5, hs6⟩ :=
        reduce_balance_ok d (value + fee) fa fw d' hr
      dsimp only
      omega

/-- Witness for C10 at a concrete input: a shortfall settlement (available 30,
withdrawing 20, value 40, fee 25: only 50 can be deducted, the fee is capped
at 10 and the full value 40 is burned). -/
theorem c10_burn_settlement_witness :
    gateway_burn_settlement ⟨0, 0, 0, 30, 20, 0⟩ 40 25 =
      .ok ⟨30, 20, 10, 40, ⟨0, 0, 0, 0, 0, 0⟩⟩ ∧
    (40 : Nat) + 10 = 30 + 20 ∧ (10 : Nat) ≤ 25 := by
  have h := c10_burn_settlement ⟨0, 0, 0, 30, 20, 0⟩ 40 25
    ⟨30, 20, 10, 40, ⟨0, 0, 0, 0, 0, 0⟩⟩ rfl
  exact ⟨rfl, h.1, h.2.1⟩

end GatewayWallet

/-! ## Delegate status transitions (claims C2 and C3) -/

namespace GatewayWallet

/-- One call against a fixed delegate record: either `add_delegate` or
`remove_delegate` with its instruction arguments. -/
inductive DelegateOp where
  | add (delegate depositor : Nat) (depositorDenylisted delegateDenylisted tokenSupported : Bool)
  | remove (delegate : Nat) (depositorDenylisted tokenSupported : Bool)
  deriving DecidableEq, Repr

/-- Apply one delegate instruction to the record's status.  A call that
errors aborts its transaction, leaving the stored status unchanged. -/
def applyDelegateOp (op : DelegateOp) (st : DelegateStatus) : DelegateStatus :=
  match op with
  | .add delegate depositor dd dl ts =>
    match add_delegate delegate depositor dd dl ts st with
    | .ok st' => st'
    | .error _ => st
  | .remove delegate dd ts =>
    match remove_delegate delegate dd ts st with
    | .ok st' => st'
    | .error _ => st

/-- Run a sequence of `add_delegate` / `remove_delegate` calls against one
delegate record. -/
def runDelegateOps (ops : List DelegateOp) (st : DelegateStatus) : DelegateStatus :=
  ops.foldl (fun s op => applyDelegateOp op s) st

/-- Helper: a successful `add_delegate` always stores `Authorized`,
whatever the previous status was. -/
theorem add_delegate_ok_status (delegate depositor : Nat) (dd dl ts : Bool)
    (st st' : DelegateStatus)
    (h : add_delegate delegate depositor dd dl ts st = .ok st') :
    st' = .authorized := by
  unfold add_delegate at h
  split_ifs at h <;> simp_all

/-- Helper: a successful `remove_delegate` revokes an `Authorized` record and
leaves any other status unchanged. -/
theorem remove_delegate_ok_status (delegate : Nat) (dd ts : Bool)
    (st st' : DelegateStatus)
    (h : remove_delegate delegate dd ts st = .ok st') :
    st' = if st = .authorized then .revoked else st := by
  unfold remove_delegate at h
  split_ifs at h with h1 h2 h3 h4
  · simp only [Except.ok.injEq] at h
    subst h
    rcases h4 with h4 | h4 <;> simp [h4]
  · simp only [Except.ok.injEq] at h
    subst h
    have hst : st = .authorized := by
      push_neg at h4
      cases st <;> simp_all
    simp [hst]

/-- Helper: one delegate instruction can never store `Unauthorized` over a
record that is not already `Unauthorized`. -/
theorem applyDelegateOp_ne_unauthorized (op : DelegateOp) (st : DelegateStatus)
    (h : st ≠ .unauthorized) : applyDelegateOp op st ≠ .unauthorized := by
  cases op with
  | add delegate depositor dd dl ts =>
      dsimp only [applyDelegateOp]
      cases hres : add_delegate delegate depositor dd dl ts st with
      | ok st' =>
          have ha := add_delegate_ok_status delegate depositor dd dl ts st st' hres
          show st' ≠ _
          simp [ha]
      | error e =>
          exact h
  | remove delegate dd ts =>
      dsimp only [applyDelegateOp]
      cases hres : remove_delegate delegate dd ts st with
      | ok st' =>
          have ha := remove_delegate_ok_status delegate dd ts st st' hres
          show st' ≠ _
          rw [ha]
          split_ifs <;> simp_all
      | error e =>
          exact h

/-- Claim C2 counterexample: the status of a delegate record is not
monotone.  Starting from a fresh record (`Unauthorized`), the sequence
`add_delegate; remove_delegate` reaches `Revoked`, and one further
`add_delegate` call moves the record from `Revoked` back to `Authorized` —
`add_delegate` is `init_if_needed` and stores `Authorized` unconditionally,
so revocation is reversible. -/
theorem c2_counterexample :
    runDelegateOps [.add 5 7 false false true, .remove 5 false true] .unauthorized =
      .revoked ∧
    runDelegateOps [.add 5 7 false false true, .remove 5 false true,
      .add 5 7 false false true] .unauthorized = .authorized := by
  exact ⟨rfl, rfl⟩

/-- Claim C2 (amended): a delegate record's status never returns to
`Unauthorized` under any sequence of `add_delegate` / `remove_delegate`
calls; a successful `add_delegate` always stores `Authorized` (re-authorizing
even a `Revoked` record), and a successful `remove_delegate` moves
`Authorized` to `Revoked` and leaves `Unauthorized` and `Revoked` records
unchanged. -/
theorem c2_delegate_status (ops : List DelegateOp) (st : DelegateStatus) :
    (st ≠ .unauthorized → runDelegateOps ops st ≠ .unauthorized) ∧
    (∀ delegate depositor dd dl ts st',
      add_delegate delegate depositor dd dl ts st = .ok st' → st' = .authorized) ∧
    (∀ delegate dd ts st',
      remove_delegate delegate dd ts st = .ok st' →
        st' = if st = .authorized then .revoked else st) := by
  refine ⟨?_, ?_, ?_⟩
  · intro hne
    induction ops generalizing st with
    | nil => exact hne
    | cons op ops ih =>
        exact ih (applyDelegateOp op st) (applyDelegateOp_ne_unauthorized op st hne)
  · intro delegate depositor dd dl ts st' h
    exact add_delegate_ok_status delegate depositor dd dl ts st st' h
  · intro delegate dd ts st' h
    exact remove_delegate_ok_status delegate dd ts st st' h

/-- Witness for C2 (amended) at concrete inputs: from `Revoked`, no sequence
of the two calls reaches `Unauthorized`; a successful add stores
`Authorized`; a successful remove from `Authorized` stores `Revoked`. -/
theorem c2_delegate_status_witness :
    runDelegateOps [.remove 5 false true, .add 5 7 false false true] .revoked ≠
      .unauthorized ∧
    DelegateStatus.authorized = .authorized ∧
    DelegateStatus.revoked =
      (if (DelegateStatus.authorized : DelegateStatus) = .authorized
        then DelegateStatus.revoked else .authorized) := by
  refine ⟨(c2_delegate_status [.remove 5 false true, .add 5 7 false false true]
      .revoked).1 (by decide),
    (c2_delegate_status [] .authorized).2.1 5 7 false false true .authorized rfl,
    (c2_delegate_status [] .authorized).2.2 5 false true .revoked rfl⟩

/-- Claim C3: with `source_signer ≠ source_depositor`, signer authorization
for `gateway_burn` succeeds exactly when a delegate account is supplied whose
`depositor` field is the source depositor, whose `delegate` field is the
source signer, and whose status is `Authorized` or `Revoked`; in particular
a `Revoked` delegate still authorizes a fresh burn intent. -/
theorem c3_signer_authorization (sourceSigner sourceDepositor : Nat)
    (acct : Option GatewayDelegate) (hne : sourceSigner ≠ sourceDepositor) :
    validate_signer_authorization sourceSigner sourceDepositor acct = .ok () ↔
      ∃ r, acct = some r ∧ r.depositor = sourceDepositor ∧
        r.delegate = sourceSigner ∧
        (r.status = .authorized ∨ r.status = .revoked) := by
  unfold validate_signer_authorization
  rw [if_neg hne]
  cases acct with
  | none => simp
  | some r =>
      dsimp only
      unfold was_ever_authorized_for_balance
      rw [if_neg hne]
      constructor
      · intro h
        by_cases h1 : r.depositor = sourceDepositor
        · by_cases h2 : r.delegate = sourceSigner
          · by_cases h3 : r.status = .unauthorized
            · rw [if_neg (by simp [h1]), if_neg (by simp [h2]),
                if_pos (by simp [h3])] at h
              exact absurd h (by simp)
            · refine ⟨r, rfl, h1, h2, ?_⟩
              cases hst : r.status <;> simp_all
          · rw [if_neg (by simp [h1]), if_pos h2] at h
            exact absurd h (by simp)
        · rw [if_pos h1] at h
          exact absurd h (by simp)
      · rintro ⟨r', hr, hdep, hdel, hst⟩
        obtain rfl : r' = r := by simpa using hr.symm
        rw [if_neg (by simpa using hdep), if_neg (by simpa using hdel),
          if_neg (by rcases hst with h | h <;> simp [h])]

/-- Witness for C3 at a concrete input: a `Revoked` delegate record matching
the depositor and signer still authorizes the burn. -/
theorem c3_signer_authorization_witness :
    validate_signer_authorization 1 2 (some ⟨0, .revoked, 0, 3, 2, 1⟩) = .ok () := by
  exact (c3_signer_authorization 1 2 (some ⟨0, .revoked, 0, 3, 2, 1⟩)
    (by decide)).mpr ⟨⟨0, .revoked, 0, 3, 2, 1⟩, rfl, rfl, rfl, Or.inr rfl⟩

end GatewayWallet

/-! ## Replay registry (claim C1)

`shared/src/lib.rs` provides `is_transfer_spec_hash_used` and
`create_used_transfer_spec_hash_account`.  Both `gateway_burn`
(`gateway-wallet`) and `gateway_mint` (`gateway-minter`) derive the used-hash
record as a PDA of `[USED_TRANSFER_SPEC_HASH_SEED_PREFIX, transfer_spec_hash]`
under **their own** program id, check `is_transfer_spec_hash_used`, fail with
`TransferSpecHashAlreadyUsed` when the record is present, and otherwise create
the record and write their `UsedTransferSpecHash` account discriminator
(`[21, 4]` for the wallet, `[11, 1]` for the minter).  Since the two programs
have distinct ids, the two PDAs are distinct accounts: the registry is keyed
by (program, hash). -/

/-- The two deployed programs that consult the used-hash registry. -/
inductive Prog where
  | wallet
  | minter
  deriving DecidableEq, Repr

/-- `UsedTransferSpecHash::DISCRIMINATOR` of each program
(`#[account(discriminator = [21, 4])]` in the wallet's `state.rs`,
`#[account(discriminator = [11, 1])]` in the minter's `state.rs`). -/
def progHashDisc : Prog → List Nat
  | .wallet => [21, 4]
  | .minter => [11, 1]

/-- `is_transfer_spec_hash_used` (`shared/src/lib.rs`): the account data is
at least `DISCRIMINATOR_SIZE = 2` bytes long and starts with the
discriminator. -/
def is_transfer_spec_hash_used (accountData disc : List Nat) : Bool :=
  decide (2 ≤ accountData.length) && decide (accountData.take 2 = disc)

/-- Account data of every used-hash PDA, keyed by (program, hash); `[]` means
the account does not exist. -/
abbrev RegState := Prog → List Nat → List Nat

/-- `create_used_transfer_spec_hash_account` (`shared/src/lib.rs`): creates
the 2-byte account and writes the program's discriminator. -/
def writeHashRecord (st : RegState) (p : Prog) (k : List Nat) : RegState :=
  fun q j => if q = p ∧ j = k then progHashDisc p else st q j

/-- Error of the replay check (`TransferSpecHashAlreadyUsed` exists in both
programs' error enums). -/
inductive RErr where
  | transferSpecHashAlreadyUsed
  deriving DecidableEq, Repr

/-- The replay-registry step shared by `gateway_burn`
(`instructions/gateway_burn.rs` lines 267-285) and
`process_used_transfer_spec_hash` (`instructions/gateway_mint.rs` lines
275-317): fail if the record is present, otherwise create it. -/
def claimStep (st : RegState) (p : Prog) (k : List Nat) : Except RErr RegState :=
  if is_transfer_spec_hash_used (st p k) (progHashDisc p) then
    .error .transferSpecHashAlreadyUsed
  else
    .ok (writeHashRecord st p k)

/-- Whether the used-hash record for (program, hash) is present. -/
def usedIn (st : RegState) (p : Prog) (k : List Nat) : Bool :=
  is_transfer_spec_hash_used (st p k) (progHashDisc p)

/-- Run a sequence of burn/mint replay checks; each returns whether its
execution succeeded (a failed check aborts its transaction, leaving the
registry unchanged). -/
def runClaims (st : RegState) : List (Prog × List Nat) → RegState × List Bool
  | [] => (st, [])
  | (q, j) :: rest =>
    match claimStep st q j with
    | .ok st' =>
      ((runClaims st' rest).1, true :: (runClaims st' rest).2)
    | .error _ =>
      ((runClaims st rest).1, false :: (runClaims st rest).2)

/-- How many executions touching exactly (program `p`, hash `k`) succeeded. -/
def successesFor (p : Prog) (k : List Nat) :
    List (Prog × List Nat) → List Bool → Nat
  | (q, j) :: ops, b :: flags =>
    (if q = p ∧ j = k ∧ b = true then 1 else 0) + successesFor p k ops flags
  | _, _ => 0

theorem usedIn_writeHashRecord_self (st : RegState) (p : Prog) (k : List Nat) :
    usedIn (writeHashRecord st p k) p k = true := by
  cases p <;> simp [usedIn, writeHashRecord, is_transfer_spec_hash_used, progHashDisc]

theorem writeHashRecord_other (st : RegState) (q : Prog) (j : List Nat)
    (p : Prog) (k : List Nat) (hne : ¬(p = q ∧ k = j)) :
    writeHashRecord st q j p k = st p k := by
  simp [writeHashRecord, hne]

/-- Helper: a successful claim starts from an unused record and marks it
used; a used record makes the claim fail. -/
theorem claimStep_spec (st : RegState) (p : Prog) (k : List Nat) :
    (∀ st', claimStep st p k = .ok st' →
      usedIn st p k = false ∧ usedIn st' p k = true) ∧
    (usedIn st p k = true →
      claimStep st p k = .error .transferSpecHashAlreadyUsed) := by
  constructor
  · intro st' h
    unfold claimStep at h
    split_ifs at h with hu
    simp only [Except.ok.injEq] at h
    subst h
    exact ⟨by simpa [usedIn] using hu, usedIn_writeHashRecord_self st p k⟩
  · intro hu
    unfold claimStep
    rw [if_pos (by simpa [usedIn] using hu)]

/-- Helper: used records stay used under any further claims (records are
never deleted). -/
theorem runClaims_used_mono (ops : List (Prog × List Nat)) (st : RegState)
    (p : Prog) (k : List Nat) (hu : usedIn st p k = true) :
    usedIn (runClaims st ops).1 p k = true := by
  induction ops generalizing st with
  | nil => exact hu
  | cons op rest ih =>
      obtain ⟨q, j⟩ := op
      show usedIn (runClaims st ((q, j) :: rest)).1 p k = true
      unfold runClaims
      cases hc : claimStep st q j with
      | ok st' =>
          dsimp only
          refine ih st' ?_
          by_cases hpq : p = q ∧ k = j
          · obtain ⟨rfl, rfl⟩ := hpq
            unfold claimStep at hc
            rw [if_pos (by simpa [usedIn] using hu)] at hc
            exact absurd hc (by simp)
          · unfold claimStep at hc
            split_ifs at hc
            simp only [Except.ok.injEq] at hc
            subst hc
            simpa [usedIn, writeHashRecord_other st q j p k hpq] using hu
      | error e =>
          dsimp only
          exact ih st hu

/-- Helper: per (program, hash), any sequence of replay checks admits at most
one success, and none at all if the record is already present. -/
theorem runClaims_success_bound (ops : List (Prog × List Nat)) (st : RegState)
    (p : Prog) (k : List Nat) :
    (usedIn st p k = true → successesFor p k ops (runClaims st ops).2 = 0) ∧
    successesFor p k ops (runClaims st ops).2 ≤ 1 := by
  induction ops generalizing st with
  | nil => exact ⟨fun _ => rfl, by simp [runClaims, successesFor]⟩
  | cons op rest ih =>
      obtain ⟨q, j⟩ := op
      unfold runClaims
      cases hc : claimStep st q j with
      | ok st' =>
          dsimp only
          by_cases hpk : q = p ∧ j = k
          · obtain ⟨rfl, rfl⟩ := hpk
            have hspec := (claimStep_spec st q j).1 st' hc
            have h0 := (ih st').1 hspec.2
            have hsf : successesFor q j ((q, j) :: rest) (true :: (runClaims st' rest).2)
                = 1 + successesFor q j rest (runClaims st' rest).2 := by
              simp [successesFor]
            constructor
            · intro hu
              rw [hspec.1] at hu
              exact absurd hu (by simp)
            · rw [hsf, h0]
          · have heq : usedIn st' p k = usedIn st p k := by
              unfold claimStep at hc
              split_ifs at hc
              simp only [Except.ok.injEq] at hc
              subst hc
              simp [usedIn, writeHashRecord_other st q j p k (by tauto)]
            have hsf : successesFor p k ((q, j) :: rest) (true :: (runClaims st' rest).2)
                = successesFor p k rest (runClaims st' rest).2 := by
              simp [successesFor, hpk]
            constructor
            · intro hu
              rw [hsf]
              exact (ih st').1 (by rw [heq]; exact hu)
            · rw [hsf]
              exact (ih st').2
      | error e =>
          dsimp only
          have hsf : successesFor p k ((q, j) :: rest) (false :: (runClaims st rest).2)
              = successesFor p k rest (runClaims st rest).2 := by
            simp [successesFor]
          constructor
          · intro hu
            rw [hsf]
            exact (ih st).1 hu
          · rw [hsf]
            exact (ih st).2

/-- Claim C1 counterexample: starting from an empty registry, a
`gateway_burn` and a `gateway_mint` both succeed for the same 32-byte
transfer spec hash — the wallet and minter programs have distinct ids, so
each derives and fills its own used-hash PDA for the hash, and neither sees
the other's record. -/
theorem c1_counterexample :
    (runClaims (fun _ _ => [])
      [(.wallet, List.replicate 32 0), (.minter, List.replicate 32 0)]).2
      = [true, true] := by
  decide

/-- Claim C1 (amended): per program, for every transfer spec hash at most one
execution can ever succeed: a successful check starts from an absent record
and writes the program's discriminator into it, a present record makes every
later same-program execution with the same hash fail with
`TransferSpecHashAlreadyUsed`, and used-hash records are never deleted.
(Across the two programs one burn and one mint can both succeed for the same
hash, as the counterexample shows.) -/
theorem c1_replay_registry (st : RegState) (ops : List (Prog × List Nat))
    (p : Prog) (k : List Nat) :
    successesFor p k ops (runClaims st ops).2 ≤ 1 ∧
    (usedIn st p k = true → successesFor p k ops (runClaims st ops).2 = 0) ∧
    (usedIn st p k = true → usedIn (runClaims st ops).1 p k = true) ∧
    (∀ st', claimStep st p k = .ok st' →
      usedIn st p k = false ∧ usedIn st' p k = true) ∧
    (usedIn st p k = true →
      claimStep st p k = .error .transferSpecHashAlreadyUsed) :=
  ⟨(runClaims_success_bound ops st p k).2, (runClaims_success_bound ops st p k).1,
   runClaims_used_mono ops st p k, (claimStep_spec st p k).1, (claimStep_spec st p k).2⟩

/-- Witness for C1 (amended) at concrete inputs: two wallet burns for the
same hash yield at most one success, and a present record makes the claim
fail with `TransferSpecHashAlreadyUsed`. -/
theorem c1_replay_registry_witness :
    successesFor .wallet (List.replicate 32 0)
      [(.wallet, List.replicate 32 0), (.wallet, List.replicate 32 0)]
      (runClaims (fun _ _ => [])
        [(.wallet, List.replicate 32 0), (.wallet, List.replicate 32 0)]).2 ≤ 1 ∧
    claimStep (fun _ _ => [21, 4]) .wallet (List.replicate 32 0) =
      .error .transferSpecHashAlreadyUsed := by
  refine ⟨(c1_replay_registry (fun _ _ => [])
      [(.wallet, List.replicate 32 0), (.wallet, List.replicate 32 0)]
      .wallet (List.replicate 32 0)).1, ?_⟩
  exact (c1_replay_registry (fun _ _ => [21, 4]) [] .wallet
    (List.replicate 32 0)).2.2.2.2 (by decide)

/-! ## EVM signature recovery (claim C7, `shared/src/lib.rs`) -/

namespace GatewayShared

@[simp] theorem exceptBind_ok {e a b : Type} (x : a) (f : a → Except e b) :
    (Except.ok x >>= f) = f x := rfl

@[simp] theorem exceptBind_error {e a b : Type} (err : e) (f : a → Except e b) :
    ((Except.error err : Except e a) >>= f) = Except.error err := rfl

/-- `EvmSignatureError` (`shared/src/lib.rs`). -/
inductive EvmSignatureError where
  | invalidMessageHash
  | invalidSignatureLength
  | invalidRecoveryId
  | invalidSignature
  | invalidSignatureSValue
  deriving DecidableEq, Repr

/-- The one observation `recover_evm_signer` makes of a parsed
`libsecp256k1::Signature`: whether its `s` component is in the high half of
the curve order (`sig.s.is_high()`). -/
structure EVMSignature where
  sHigh : Bool
  deriving DecidableEq, Repr

/-- Zero the first 12 bytes of a recovered address
(`address[0..12].iter_mut().for_each(|x| *x = 0)`). -/
def zeroFirst12 (addr : List Nat) : List Nat :=
  List.replicate 12 0 ++ addr.drop 12

/-- `recover_evm_signer` (`shared/src/lib.rs`).  The cryptographic
primitives are parameters of the embedding: `parse` is
`libsecp256k1::Signature::parse_standard_slice` (`none` for `Err`),
`recover` is `secp256k1_recover` over (digest, recovery id 0/1, 64-byte
signature) returning the 64-byte public key (`none` for `Err`), and `keccak`
is the 32-byte keccak256 hash. -/
def recover_evm_signer (parse : List Nat → Option EVMSignature)
    (recover : List Nat → Nat → List Nat → Option (List Nat))
    (keccak : List Nat → List Nat)
    (messageHash signature : List Nat) :
    Except EvmSignatureError (List Nat) :=
  if messageHash.length ≠ 32 then
    .error .invalidMessageHash
  else if signature.length ≠ 65 then
    .error .invalidSignatureLength
  else if signature.getD 64 0 ≠ 27 ∧ signature.getD 64 0 ≠ 28 then
    .error .invalidRecoveryId
  else
    match parse (signature.take 64) with
    | none => .error .invalidSignature
    | some sig =>
      if sig.sHigh then
        .error .invalidSignatureSValue
      else
        match recover messageHash (signature.getD 64 0 - 27) (signature.take 64) with
        | none => .error .invalidSignature
        | some pk => .ok (zeroFirst12 (keccak pk))

/-- Claim C7: `recover_evm_signer` errors whenever the signature is not
exactly 65 bytes, or its recovery marker (last byte) is neither 27 nor 28,
or the parsed `s` component is high; and when secp256k1 recovery succeeds on
a well-formed low-s signature it returns the keccak hash of the recovered
public key with its first 12 bytes zeroed (keeping the low 20 bytes). -/
theorem c7_recover_evm_signer (parse : List Nat → Option EVMSignature)
    (recover : List Nat → Nat → List Nat → Option (List Nat))
    (keccak : List Nat → List Nat) (messageHash signature : List Nat) :
    (signature.length ≠ 65 →
      exceptOk (recover_evm_signer parse recover keccak messageHash signature) = false) ∧
    (signature.getD 64 0 ≠ 27 ∧ signature.getD 64 0 ≠ 28 →
      exceptOk (recover_evm_signer parse recover keccak messageHash signature) = false) ∧
    (∀ sig, parse (signature.take 64) = some sig → sig.sHigh = true →
      exceptOk (recover_evm_signer parse recover keccak messageHash signature) = false) ∧
    (∀ sig pk, messageHash.length = 32 → signature.length = 65 →
      (signature.getD 64 0 = 27 ∨ signature.getD 64 0 = 28) →
      parse (signature.take 64) = some sig → sig.sHigh = false →
      recover messageHash (signature.getD 64 0 - 27) (signature.take 64) = some pk →
      recover_evm_signer parse recover keccak messageHash signature =
        .ok (List.replicate 12 0 ++ (keccak pk).drop 12)) := by
  refine ⟨?_, ?_, ?_, ?_⟩
  · intro hlen
    unfold recover_evm_signer
    split_ifs <;> simp_all
  · intro hrid
    unfold recover_evm_signer
    split_ifs <;> simp_all
  · intro sig hparse hhigh
    unfold recover_evm_signer
    split_ifs <;> try simp_all
  · intro sig pk hmh hsl hrid hparse hlow hrec
    unfold recover_evm_signer
    rw [if_neg (by omega), if_neg (by omega), if_neg (by tauto), hparse]
    dsimp only
    rw [if_neg (by simp [hlow]), hrec]
    rfl

/-- Witness for C7 at concrete inputs, with concrete stand-ins for the
crypto primitives: a too-short signature errors; a well-formed low-s
signature recovers the zero-padded identity. -/
theorem c7_recover_evm_signer_witness :
    exceptOk (recover_evm_signer (fun _ => some ⟨false⟩)
      (fun _ _ _ => some (List.replicate 64 1)) (fun _ => List.replicate 32 7)
      (List.replicate 32 0) [1, 2, 3]) = false ∧
    recover_evm_signer (fun _ => some ⟨false⟩)
      (fun _ _ _ => some (List.replicate 64 1)) (fun _ => List.replicate 32 7)
      (List.replicate 32 0) (List.replicate 64 0 ++ [27]) =
      .ok (List.replicate 12 0 ++ (List.replicate 32 7).drop 12) := by
  constructor
  · exact (c7_recover_evm_signer (fun _ => some ⟨false⟩)
      (fun _ _ _ => some (List.replicate 64 1)) (fun _ => List.replicate 32 7)
      (List.replicate 32 0) [1, 2, 3]).1 (by decide)
  · exact (c7_recover_evm_signer (fun _ => some ⟨false⟩)
      (fun _ _ _ => some (List.replicate 64 1)) (fun _ => List.replicate 32 7)
      (List.replicate 32 0) (List.replicate 64 0 ++ [27])).2.2.2 ⟨false⟩
      (List.replicate 64 1) (by decide) (by decide) (by decide) rfl rfl rfl

end GatewayShared

/-! ## Ed25519 companion-proof check (claim C8,
`programs/gateway-wallet/src/ed25519.rs` and
`instructions/gateway_burn.rs::verify_user_signature`) -/

namespace GatewayWallet

/-- Little-endian interpretation of a byte list (`u16::from_le_bytes`). -/
def fromLeBytes (l : List Nat) : Nat :=
  l.foldr (fun b acc => b + 256 * acc) 0

/-- `Ed25519InstructionData::read_u8` (`ed25519.rs`): `data.get(index)` with a
typed error when out of range. -/
def ed_read_u8 (data : List Nat) (i : Nat) : Except WErr Nat :=
  match data.get? i with
  | some b => .ok b
  | none => .error .invalidEd25519InstructionData

/-- `Ed25519InstructionData::read_u16` (`ed25519.rs`): a 2-byte little-endian
slice read (a Rust out-of-range slice access panics, marked `panicOOB`). -/
def ed_read_u16 (data : List Nat) (i : Nat) : Except WErr Nat :=
  match sliceN data i 2 with
  | some l => .ok (fromLeBytes l)
  | none => .error .panicOOB

/-- An instruction as seen via the instructions sysvar: a program id
(abstracted to `Nat`) and its data bytes. -/
structure Instruction where
  programId : Nat
  data : List Nat
  deriving DecidableEq, Repr

/-- `verify_user_signature` (`instructions/gateway_burn.rs` lines 348-418):
`ed25519ProgramId` abstracts `ed25519_program::ID`, `currentIndex` is the
value of `load_current_index_checked`, and `prev` is the immediately
preceding instruction (`get_instruction_relative(-1)`).  The expected
constants are `BURN_DATA_OFFSET = 6` plus `BURN_DATA_USER_SIGNATURE_OFFSET =
8` (signature offset 14), `TS_SOURCE_SIGNER_OFFSET = 368` (public key offset
374), and `BURN_INTENT_MESSAGE_PREFIX_OFFSET = 72` (message offset 78). -/
def verify_user_signature (ed25519ProgramId currentIndex : Nat)
    (prev : Instruction) (burnIntentMessageLength : Nat) : Except WErr Unit :=
  if 65535 < burnIntentMessageLength then
    .error .malformedBurnData
  else if currentIndex = 0 then
    .error .previousInstructionNotEd25519Program
  else if prev.programId ≠ ed25519ProgramId then
    .error .previousInstructionNotEd25519Program
  else if prev.data.length ≠ 16 then
    .error .invalidEd25519InstructionData
  else
    ed_read_u8 prev.data 0 >>= fun numSignatures =>
    ed_read_u8 prev.data 1 >>= fun padding =>
    ed_read_u16 prev.data 2 >>= fun signatureOffset =>
    ed_read_u16 prev.data 4 >>= fun signatureIndex =>
    ed_read_u16 prev.data 6 >>= fun publicKeyOffset =>
    ed_read_u16 prev.data 8 >>= fun publicKeyIndex =>
    ed_read_u16 prev.data 10 >>= fun messageOffset =>
    ed_read_u16 prev.data 12 >>= fun messageSize =>
    ed_read_u16 prev.data 14 >>= fun messageIndex =>
    if numSignatures = 1 ∧ padding = 0 ∧
        signatureOffset = 14 ∧ signatureIndex = currentIndex ∧
        publicKeyOffset = 374 ∧ publicKeyIndex = currentIndex ∧
        messageOffset = 78 ∧ messageSize = burnIntentMessageLength ∧
        messageIndex = currentIndex then
      .ok ()
    else
      .error .invalidEd25519InstructionData

theorem ed_read_u8_ok (data : List Nat) (i : Nat) (h : i < data.length) :
    ∃ v, ed_read_u8 data i = .ok v := by
  unfold ed_read_u8
  cases hg : data.get? i with
  | some b => exact ⟨b, rfl⟩
  | none => exact absurd hg (by simp [List.get?_eq_none]; omega)

theorem ed_read_u16_ok (data : List Nat) (i : Nat) (h : i + 2 ≤ data.length) :
    ∃ v, ed_read_u16 data i = .ok v := by
  unfold ed_read_u16
  cases hg : sliceN data i 2 with
  | some l => exact ⟨fromLeBytes l, rfl⟩
  | none =>
      have := (sliceN_isSome data i 2).2 h
      rw [hg] at this
      exact absurd this (by simp)

/-- Claim C8: the companion proof is accepted exactly when the preceding
instruction is the Ed25519 program with exactly 16 bytes of data whose nine
fields all equal the expected constants: one signature, zero padding,
signature offset 14 (the `user_signature` field), public key offset 374 (the
`source_signer` field), message offset 78 and message size equal to the
prefix-onward message length, and all three instruction indices equal to the
current index (which must be positive); a single mismatching field is
rejected, with no partial matching. -/
theorem c8_verify_user_signature (ed25519ProgramId currentIndex : Nat)
    (prev : Instruction) (burnIntentMessageLength : Nat) :
    verify_user_signature ed25519ProgramId currentIndex prev
        burnIntentMessageLength = .ok () ↔
      burnIntentMessageLength ≤ 65535 ∧ 0 < currentIndex ∧
      prev.programId = ed25519ProgramId ∧ prev.data.length = 16 ∧
      ed_read_u8 prev.data 0 = .ok 1 ∧ ed_read_u8 prev.data 1 = .ok 0 ∧
      ed_read_u16 prev.data 2 = .ok 14 ∧
      ed_read_u16 prev.data 4 = .ok currentIndex ∧
      ed_read_u16 prev.data 6 = .ok 374 ∧
      ed_read_u16 prev.data 8 = .ok currentIndex ∧
      ed_read_u16 prev.data 10 = .ok 78 ∧
      ed_read_u16 prev.data 12 = .ok burnIntentMessageLength ∧
      ed_read_u16 prev.data 14 = .ok currentIndex := by
  unfold verify_user_signature
  by_cases h1 : 65535 < burnIntentMessageLength
  · rw [if_pos h1]
    simp
    omega
  · rw [if_neg h1]
    by_cases h2 : currentIndex = 0
    · rw [if_pos h2]
      simp
      omega
    · rw [if_neg h2]
      by_cases h3 : prev.programId = ed25519ProgramId
      · rw [if_neg (by simp [h3])]
        by_cases h4 : prev.data.length = 16
        · rw [if_neg (by simp [h4])]
          obtain ⟨v0, hv0⟩ := ed_read_u8_ok prev.data 0 (by omega)
          obtain ⟨v1, hv1⟩ := ed_read_u8_ok prev.data 1 (by omega)
          obtain ⟨v2, hv2⟩ := ed_read_u16_ok prev.data 2 (by omega)
          obtain ⟨v4, hv4⟩ := ed_read_u16_ok prev.data 4 (by omega)
          obtain ⟨v6, hv6⟩ := ed_read_u16_ok prev.data 6 (by omega)
          obtain ⟨v8, hv8⟩ := ed_read_u16_ok prev.data 8 (by omega)
          obtain ⟨v10, hv10⟩ := ed_read_u16_ok prev.data 10 (by omega)
          obtain ⟨v12, hv12⟩ := ed_read_u16_ok prev.data 12 (by omega)
          obtain ⟨v14, hv14⟩ := ed_read_u16_ok prev.data 14 (by omega)
          rw [hv0, hv1, hv2, hv4, hv6, hv8, hv10, hv12, hv14]
          simp only [GatewayShared.exceptBind_ok]
          split_ifs with hc
          · simp only [true_iff]
            obtain ⟨c1, c2, c3, c4, c5, c6, c7, c8, c9⟩ := hc
            subst c1; subst c2; subst c3; subst c4; subst c5
            subst c6; subst c7; subst c8; subst c9
            exact ⟨by omega, by omega, h3, h4, rfl, rfl, rfl, rfl, rfl,
              rfl, rfl, rfl, rfl⟩
          · simp only [false_iff] -- mismatch: some field differs
            intro hcontra
            obtain ⟨-, -, -, -, k0, k1, k2, k4, k6, k8, k10, k12, k14⟩ := hcontra
            simp only [Except.ok.injEq] at k0 k1 k2 k4 k6 k8 k10 k12 k14
            exact hc ⟨k0, k1, k2, k4, k6, k8, k10, k12, k14⟩
        · rw [if_pos (by simp [h4])]
          simp [h4]
      · rw [if_pos (by simp [h3])]
        simp [h3]

/-- Witness for C8 at a concrete input: the exactly-matching 16-byte Ed25519
instruction data for current index 1 and message length 356 is accepted. -/
theorem c8_verify_user_signature_witness :
    verify_user_signature 9 1
      ⟨9, [1, 0, 14, 0, 1, 0, 118, 1, 1, 0, 78, 0, 100, 1, 1, 0]⟩ 356 = .ok () := by
  exact (c8_verify_user_signature 9 1
    ⟨9, [1, 0, 14, 0, 1, 0, 118, 1, 1, 0, 78, 0, 100, 1, 1, 0]⟩ 356).mpr
    ⟨by norm_num, by norm_num, rfl, rfl, rfl, rfl, rfl, rfl, rfl, rfl, rfl, rfl, rfl⟩

end GatewayWallet

/-! ## MintAttestation parser and encoder (claims C6 and C9,
`programs/gateway-minter/src/attestation.rs`) -/

namespace GatewayMinter

/-- Error codes of the gateway-minter program used by the embedded fragments
(`programs/gateway-minter/src/error.rs`), plus the `panicOOB` marker for a
Rust slice access or unsigned subtraction that would panic. -/
inductive MErr where
  | attestationTooShort
  | attestationMagicMismatch
  | emptyAttestationSet
  | attestationTooLong
  | malformedMintAttestation
  | panicOOB
  deriving DecidableEq, Repr

/-- `MintAttestation` iterator state (`attestation.rs`): the buffer, the
cursor to the element currently exposed, the number of elements already
stepped over, and the declared element count. -/
structure MintAttestation where
  data : List Nat
  offset : Nat
  index : Nat
  numElements : Nat
  deriving DecidableEq, Repr

/-- `MintAttestation::read_u32` (big-endian); an out-of-range slice would
panic. -/
def read_u32 (a : MintAttestation) (i : Nat) : Except MErr Nat :=
  match sliceN a.data i 4 with
  | some l => .ok (fromBeBytes l)
  | none => .error .panicOOB

/-- `MintAttestation::read_u64` (big-endian). -/
def read_u64 (a : MintAttestation) (i : Nat) : Except MErr Nat :=
  match sliceN a.data i 8 with
  | some l => .ok (fromBeBytes l)
  | none => .error .panicOOB

/-- `MintAttestation::read_pubkey` / `read_bytes::<32>`: 32 raw bytes. -/
def read_bytes32 (a : MintAttestation) (i : Nat) : Except MErr (List Nat) :=
  match sliceN a.data i 32 with
  | some l => .ok l
  | none => .error .panicOOB

/-- `MintAttestation::ATTESTATION_SET_MAGIC`. -/
def ATTESTATION_SET_MAGIC : Nat := 0x10cbb1ec

def magic (a : MintAttestation) : Except MErr Nat := read_u32 a 0

def version (a : MintAttestation) : Except MErr Nat := read_u32 a 4

def destination_domain (a : MintAttestation) : Except MErr Nat := read_u32 a 8

def destination_contract (a : MintAttestation) : Except MErr (List Nat) :=
  read_bytes32 a 12

def destination_caller (a : MintAttestation) : Except MErr (List Nat) :=
  read_bytes32 a 44

def max_block_height (a : MintAttestation) : Except MErr Nat := read_u64 a 76

def num_attestations (a : MintAttestation) : Except MErr Nat := read_u32 a 84

def destination_token (a : MintAttestation) : Except MErr (List Nat) :=
  read_bytes32 a (a.offset + 0)

def destination_recipient (a : MintAttestation) : Except MErr (List Nat) :=
  read_bytes32 a (a.offset + 32)

def element_value (a : MintAttestation) : Except MErr Nat :=
  read_u64 a (a.offset + 64)

def transfer_spec_hash (a : MintAttestation) : Except MErr (List Nat) :=
  read_bytes32 a (a.offset + 72)

def hook_data_length (a : MintAttestation) : Except MErr Nat :=
  read_u32 a (a.offset + 104)

def hook_data (a : MintAttestation) : Except MErr (List Nat) :=
  match hook_data_length a with
  | .error e => .error e
  | .ok hl =>
    match sliceN a.data (a.offset + 108) hl with
    | some l => .ok l
    | none => .error .panicOOB

/-- `MintAttestation::new` (`attestation.rs` lines 84-114): require at least
a header plus one fixed element header (`88 + 108 = 196` bytes), check the
set magic, read the element count, position the cursor at offset 88and
require a non-empty set.  (`u32_to_usize` and `checked_add` cannot fail over
`Nat`.) -/
def mint_attestation_new (messageBytes : List Nat) : Except MErr MintAttestation :=
  if messageBytes.length < 196 then
    .error .attestationTooShort
  else
    match magic ⟨messageBytes, 0, 0, 0⟩ with
    | .error e => .error e
    | .ok m =>
      if m ≠ ATTESTATION_SET_MAGIC then
        .error .attestationMagicMismatch
      else
        match num_attestations ⟨messageBytes, 0, 0, 0⟩ with
        | .error e => .error e
        | .ok n =>
          if n = 0 then
            .error .emptyAttestationSet
          else
            .ok ⟨messageBytes, 88, 0, n⟩

/-- `MintAttestation::next` (`attestation.rs` lines 117-159).  Past
exhaustion it is a no-op returning `false`; otherwise it advances over the
previously exposed element (reading its `hook_data_length` at the old
cursor), computes the remaining length (`data.len() - offset`, which would
panic on underflow), requires a full fixed element header and its hook data
to be present, and on the declared last element requires the cursor plus the
element length to equal the buffer length exactly. -/
def next (a : MintAttestation) : Except MErr (Bool × MintAttestation) :=
  if a.numElements ≤ a.index then
    .ok (false, a)
  else
    match ((if 0 < a.index then
        match hook_data_length a with
        | .error e => .error e
        | .ok hl => .ok (a.offset + (108 + hl))
      else .ok a.offset) : Except MErr Nat) with
    | .error e => .error e
    | .ok newOffset =>
      if a.data.length < newOffset then
        .error .panicOOB
      else if a.data.length - newOffset < 108 then
        .error .attestationTooShort
      else
        match hook_data_length ⟨a.data, newOffset, a.index + 1, a.numElements⟩ with
        | .error e => .error e
        | .ok hl' =>
          if a.data.length - newOffset < 108 + hl' then
            .error .attestationTooShort
          else if a.index + 1 = a.numElements then
            if newOffset + (108 + hl') = a.data.length then
              .ok (true, ⟨a.data, newOffset, a.index + 1, a.numElements⟩)
            else
              .error .attestationTooLong
          else
            .ok (true, ⟨a.data, newOffset, a.index + 1, a.numElements⟩)

/-- Iterate `next` (discarding the boolean) the way `gateway_mint`'s
`while attestation.next()?` loop does: an error aborts and propagates. -/
def nextIter (s : Except MErr MintAttestation) : Nat → Except MErr MintAttestation
  | 0 => s
  | k + 1 =>
    nextIter ((match s with
      | .error e => .error e
      | .ok a =>
        match next a with
        | .error e => .error e
        | .ok r => .ok r.2 : Except MErr MintAttestation)) k

/-- `MintAttestationElementStruct` (`attestation.rs`). -/
structure MintAttestationElementStruct where
  destination_token : List Nat
  destination_recipient : List Nat
  value : Nat
  transfer_spec_hash : List Nat
  hook_data : List Nat
  deriving DecidableEq, Repr

/-- `MintAttestationStruct` (`attestation.rs`). -/
structure MintAttestationStruct where
  version : Nat
  destination_domain : Nat
  destination_contract : List Nat
  destination_caller : List Nat
  max_block_height : Nat
  elements : List MintAttestationElementStruct
  deriving DecidableEq, Repr

/-- One encoded attestation element (the body of the loop in
`encode_attestation`): token, recipient, value, transfer spec hash,
hook-data length, hook data. -/
def encodeElement (e : MintAttestationElementStruct) : List Nat :=
  e.destination_token ++ (e.destination_recipient ++ (beBytes 8 e.value ++
    (e.transfer_spec_hash ++ (beBytes 4 e.hook_data.length ++ e.hook_data))))

/-- `MintAttestationStruct::encode_attestation` (`attestation.rs` lines
313-345): the 88-byte set header followed by the concatenated elements.
(`as u32` casts wrap, which `beBytes` makes explicit.) -/
def encode_attestation (s : MintAttestationStruct) : List Nat :=
  beBytes 4 ATTESTATION_SET_MAGIC ++ (beBytes 4 s.version ++
    (beBytes 4 s.destination_domain ++ (s.destination_contract ++
      (s.destination_caller ++ (beBytes 8 s.max_block_height ++
        (beBytes 4 s.elements.length ++ (s.elements.map encodeElement).flatten))))))

/-- Field bounds under which an element is representable on the wire:
32-byte token/recipient/hash fields, a `u64` value, and hook data indexable
by `u32`. -/
def WFElem (e : MintAttestationElementStruct) : Prop :=
  e.destination_token.length = 32 ∧ e.destination_recipient.length = 32 ∧
  e.transfer_spec_hash.length = 32 ∧ e.value < 2 ^ 64 ∧
  e.hook_data.length < 2 ^ 32

/-- Field bounds of a representable attestation set. -/
def WFStruct (s : MintAttestationStruct) : Prop :=
  s.version < 2 ^ 32 ∧ s.destination_domain < 2 ^ 32 ∧
  s.destination_contract.length = 32 ∧ s.destination_caller.length = 32 ∧
  s.max_block_height < 2 ^ 64 ∧ s.elements.length < 2 ^ 32 ∧
  ∀ e ∈ s.elements, WFElem e

/-- Decode the currently exposed element through the public accessors. -/
def readElement (a : MintAttestation) : Except MErr MintAttestationElementStruct :=
  match destination_token a with
  | .error e => .error e
  | .ok tok =>
    match destination_recipient a with
    | .error e => .error e
    | .ok rcp =>
      match element_value a with
      | .error e => .error e
      | .ok v =>
        match transfer_spec_hash a with
        | .error e => .error e
        | .ok hsh =>
          match hook_data a with
          | .error e => .error e
          | .ok hd => .ok ⟨tok, rcp, v, hsh, hd⟩

/-- Drain the iterator, decoding every exposed element (fueled; the fuel is
one more than the number of elements when decoding succeeds). -/
def decodeElements (a : MintAttestation) :
    Nat → Except MErr (List MintAttestationElementStruct)
  | 0 => .error .panicOOB
  | fuel + 1 =>
    match next a with
    | .error e => .error e
    | .ok (false, _) => .ok []
    | .ok (true, a') =>
      match readElement a' with
      | .error e => .error e
      | .ok e =>
        match decodeElements a' fuel with
        | .error err => .error err
        | .ok rest => .ok (e :: rest)

theorem encodeElement_length (e : MintAttestationElementStruct)
    (he : WFElem e) : (encodeElement e).length = 108 + e.hook_data.length := by
  obtain ⟨h1, h2, h3, -, -⟩ := he
  simp [encodeElement, h1, h2, h3, beBytes_length]
  omega

theorem sliceN_skip_len (c rest : List Nat) (L j n : Nat) (hL : c.length = L)
    (hj : L ≤ j) : sliceN (c ++ rest) j n = sliceN rest (j - L) n := by
  subst hL
  exact sliceN_skip c rest j n hj

theorem fromBe_beBytes4 (v : Nat) (h : v < 2 ^ 32) :
    fromBeBytes (beBytes 4 v) = v := by
  rw [fromBeBytes_beBytes]
  have h4 : (256 : Nat) ^ 4 = 2 ^ 32 := by norm_num
  rw [h4]
  exact Nat.mod_eq_of_lt h

theorem fromBe_beBytes8 (v : Nat) (h : v < 2 ^ 64) :
    fromBeBytes (beBytes 8 v) = v := by
  rw [fromBeBytes_beBytes]
  have h8 : (256 : Nat) ^ 8 = 2 ^ 64 := by norm_num
  rw [h8]
  exact Nat.mod_eq_of_lt h

/-- The concatenated element region of an encoded attestation set. -/
def encBody (l : List MintAttestationElementStruct) : List Nat :=
  (l.map encodeElement).flatten

@[simp] theorem encBody_nil : encBody [] = [] := rfl

@[simp] theorem encBody_cons (e : MintAttestationElementStruct)
    (l : List MintAttestationElementStruct) :
    encBody (e :: l) = encodeElement e ++ encBody l := by
  simp [encBody]

/-- Reading each field of the element encoded at offset `pre.length`. -/
theorem element_reads (pre tail : List Nat) (e : MintAttestationElementStruct)
    (he : WFElem e) :
    sliceN (pre ++ (encodeElement e ++ tail)) (pre.length + 0) 32 =
      some e.destination_token ∧
    sliceN (pre ++ (encodeElement e ++ tail)) (pre.length + 32) 32 =
      some e.destination_recipient ∧
    sliceN (pre ++ (encodeElement e ++ tail)) (pre.length + 64) 8 =
      some (beBytes 8 e.value) ∧
    sliceN (pre ++ (encodeElement e ++ tail)) (pre.length + 72) 32 =
      some e.transfer_spec_hash ∧
    sliceN (pre ++ (encodeElement e ++ tail)) (pre.length + 104) 4 =
      some (beBytes 4 e.hook_data.length) ∧
    sliceN (pre ++ (encodeElement e ++ tail)) (pre.length + 108)
      e.hook_data.length = some e.hook_data := by
  obtain ⟨h1, h2, h3, -, -⟩ := he
  have hE : encodeElement e ++ tail
      = e.destination_token ++ (e.destination_recipient ++ (beBytes 8 e.value ++
        (e.transfer_spec_hash ++ (beBytes 4 e.hook_data.length ++
          (e.hook_data ++ tail))))) := by
    simp [encodeElement, List.append_assoc]
  refine ⟨?_, ?_, ?_, ?_, ?_, ?_⟩ <;> rw [sliceN_append, hE]
  · exact sliceN_here _ _ _ h1
  · rw [sliceN_skip_len _ _ 32 32 32 h1 (by norm_num)]
    exact sliceN_here _ _ _ h2
  · rw [sliceN_skip_len _ _ 32 64 8 h1 (by norm_num),
      sliceN_skip_len _ _ 32 (64 - 32) 8 h2 (by norm_num)]
    exact sliceN_here _ _ _ (beBytes_length 8 e.value)
  · rw [sliceN_skip_len _ _ 32 72 32 h1 (by norm_num),
      sliceN_skip_len _ _ 32 (72 - 32) 32 h2 (by norm_num),
      sliceN_skip_len _ _ 8 (72 - 32 - 32) 32 (beBytes_length 8 e.value) (by norm_num)]
    exact sliceN_here _ _ _ h3
  · rw [sliceN_skip_len _ _ 32 104 4 h1 (by norm_num),
      sliceN_skip_len _ _ 32 (104 - 32) 4 h2 (by norm_num),
      sliceN_skip_len _ _ 8 (104 - 32 - 32) 4 (beBytes_length 8 e.value) (by norm_num),
      sliceN_skip_len _ _ 32 (104 - 32 - 32 - 8) 4 h3 (by norm_num)]
    exact sliceN_here _ _ _ (beBytes_length 4 e.hook_data.length)
  · rw [sliceN_skip_len _ _ 32 108 _ h1 (by norm_num),
      sliceN_skip_len _ _ 32 (108 - 32) _ h2 (by norm_num),
      sliceN_skip_len _ _ 8 (108 - 32 - 32) _ (beBytes_length 8 e.value) (by norm_num),
      sliceN_skip_len _ _ 32 (108 - 32 - 32 - 8) _ h3 (by norm_num),
      sliceN_skip_len _ _ 4 (108 - 32 - 32 - 8 - 32) _
        (beBytes_length 4 e.hook_data.length) (by norm_num)]
    exact sliceN_here _ _ _ rfl

/-- Reading the fields of the attestation set header. -/
theorem header_reads (s : MintAttestationStruct) (hwf : WFStruct s) :
    sliceN (encode_attestation s) 0 4 = some (beBytes 4 ATTESTATION_SET_MAGIC) ∧
    sliceN (encode_attestation s) 4 4 = some (beBytes 4 s.version) ∧
    sliceN (encode_attestation s) 8 4 = some (beBytes 4 s.destination_domain) ∧
    sliceN (encode_attestation s) 12 32 = some s.destination_contract ∧
    sliceN (encode_attestation s) 44 32 = some s.destination_caller ∧
    sliceN (encode_attestation s) 76 8 = some (beBytes 8 s.max_block_height) ∧
    sliceN (encode_attestation s) 84 4 = some (beBytes 4 s.elements.length) := by
  obtain ⟨-, -, h3, h4, -, -, -⟩ := hwf
  unfold encode_attestation
  refine ⟨?_, ?_, ?_, ?_, ?_, ?_, ?_⟩
  · exact sliceN_here _ _ _ (beBytes_length 4 _)
  · rw [sliceN_skip_len _ _ 4 4 4 (beBytes_length 4 _) (by norm_num)]
    exact sliceN_here _ _ _ (beBytes_length 4 _)
  · rw [sliceN_skip_len _ _ 4 8 4 (beBytes_length 4 _) (by norm_num),
      sliceN_skip_len _ _ 4 (8 - 4) 4 (beBytes_length 4 _) (by norm_num)]
    exact sliceN_here _ _ _ (beBytes_length 4 _)
  · rw [sliceN_skip_len _ _ 4 12 32 (beBytes_length 4 _) (by norm_num),
      sliceN_skip_len _ _ 4 (12 - 4) 32 (beBytes_length 4 _) (by norm_num),
      sliceN_skip_len _ _ 4 (12 - 4 - 4) 32 (beBytes_length 4 _) (by norm_num)]
    exact sliceN_here _ _ _ h3
  · rw [sliceN_skip_len _ _ 4 44 32 (beBytes_length 4 _) (by norm_num),
      sliceN_skip_len _ _ 4 (44 - 4) 32 (beBytes_length 4 _) (by norm_num),
      sliceN_skip_len _ _ 4 (44 - 4 - 4) 32 (beBytes_length 4 _) (by norm_num),
      sliceN_skip_len _ _ 32 (44 - 4 - 4 - 4) 32 h3 (by norm_num)]
    exact sliceN_here _ _ _ h4
  · rw [sliceN_skip_len _ _ 4 76 8 (beBytes_length 4 _) (by norm_num),
      sliceN_skip_len _ _ 4 (76 - 4) 8 (beBytes_length 4 _) (by norm_num),
      sliceN_skip_len _ _ 4 (76 - 4 - 4) 8 (beBytes_length 4 _) (by norm_num),
      sliceN_skip_len _ _ 32 (76 - 4 - 4 - 4) 8 h3 (by norm_num),
      sliceN_skip_len _ _ 32 (76 - 4 - 4 - 4 - 32) 8 h4 (by norm_num)]
    exact sliceN_here _ _ _ (beBytes_length 8 _)
  · rw [sliceN_skip_len _ _ 4 84 4 (beBytes_length 4 _) (by norm_num),
      sliceN_skip_len _ _ 4 (84 - 4) 4 (beBytes_length 4 _) (by norm_num),
      sliceN_skip_len _ _ 4 (84 - 4 - 4) 4 (beBytes_length 4 _) (by norm_num),
      sliceN_skip_len _ _ 32 (84 - 4 - 4 - 4) 4 h3 (by norm_num),
      sliceN_skip_len _ _ 32 (84 - 4 - 4 - 4 - 32) 4 h4 (by norm_num),
      sliceN_skip_len _ _ 8 (84 - 4 - 4 - 4 - 32 - 32) 4 (beBytes_length 8 _) (by norm_num)]
    exact sliceN_here _ _ _ (beBytes_length 4 _)

/-- Decoding the element exposed at offset `pre.length` recovers it. -/
theorem readElement_at (pre tail : List Nat) (e : MintAttestationElementStruct)
    (he : WFElem e) (idx n : Nat) :
    readElement ⟨pre ++ (encodeElement e ++ tail), pre.length, idx, n⟩ = .ok e := by
  obtain ⟨r0, r32, r64, r72, r104, r108⟩ := element_reads pre tail e he
  have hfb4 : fromBeBytes (beBytes 4 e.hook_data.length) = e.hook_data.length :=
    fromBe_beBytes4 _ he.2.2.2.2
  have hfb8 : fromBeBytes (beBytes 8 e.value) = e.value :=
    fromBe_beBytes8 _ he.2.2.2.1
  unfold readElement destination_token destination_recipient element_value
  unfold transfer_spec_hash hook_data hook_data_length read_bytes32 read_u64 read_u32
  dsimp only
  rw [r0, r32, r64, r72, r104]
  dsimp only
  rw [hfb4, hfb8, r108]

theorem next_exhausted (a : MintAttestation) (h : a.numElements ≤ a.index) :
    next a = .ok (false, a) := by
  unfold next
  rw [if_pos h]

/-- The first `next` call on a freshly parsed set exposes the first element
without advancing the cursor. -/
theorem next_expose_first (header : List Nat) (e : MintAttestationElementStruct)
    (rest : List MintAttestationElementStruct) (n : Nat)
    (hh : header.length = 88) (he : WFElem e)
    (hn : n = 1 + rest.length) :
    next ⟨header ++ (encodeElement e ++ encBody rest), 88, 0, n⟩ =
      .ok (true, ⟨header ++ (encodeElement e ++ encBody rest), 88, 1, n⟩) := by
  obtain ⟨-, -, -, -, r104, -⟩ := element_reads header (encBody rest) e he
  have hfb4 : fromBeBytes (beBytes 4 e.hook_data.length) = e.hook_data.length :=
    fromBe_beBytes4 _ he.2.2.2.2
  have hlen : (header ++ (encodeElement e ++ encBody rest)).length
      = 88 + ((108 + e.hook_data.length) + (encBody rest).length) := by
    simp [hh, encodeElement_length e he]
  rw [hh] at r104
  unfold next
  rw [if_neg (by dsimp; omega)]
  dsimp only
  rw [if_neg (by omega)]
  dsimp only
  rw [if_neg (by omega)]
  rw [if_neg (by omega)]
  unfold hook_data_length read_u32
  dsimp only
  rw [r104]
  dsimp only
  rw [hfb4]
  rw [if_neg (by omega)]
  by_cases hlast : 0 + 1 = n
  · rw [if_pos hlast]
    have hrest0 : rest = [] := by
      cases rest with
      | nil => rfl
      | cons x xs => simp at hn; omega
    subst hrest0
    rw [if_pos (by rw [hlen]; simp)]
  · rw [if_neg hlast]

/-- A later `next` call first advances over the previously exposed element
`eprev` (reading its hook-data length at the old cursor) and then exposes
`e`. -/
theorem next_expose_from (pre : List Nat)
    (eprev e : MintAttestationElementStruct)
    (rest : List MintAttestationElementStruct) (idx n : Nat)
    (hprev : WFElem eprev) (he : WFElem e)
    (hidx : 0 < idx) (hn : n = idx + 1 + rest.length) :
    next ⟨pre ++ (encodeElement eprev ++ (encodeElement e ++ encBody rest)),
        pre.length, idx, n⟩ =
      .ok (true, ⟨(pre ++ encodeElement eprev) ++ (encodeElement e ++ encBody rest),
        (pre ++ encodeElement eprev).length, idx + 1, n⟩) := by
  have hassoc : pre ++ (encodeElement eprev ++ (encodeElement e ++ encBody rest))
      = (pre ++ encodeElement eprev) ++ (encodeElement e ++ encBody rest) := by
    simp [List.append_assoc]
  obtain ⟨-, -, -, -, r104prev, -⟩ :=
    element_reads pre (encodeElement e ++ encBody rest) eprev hprev
  have hfb4prev : fromBeBytes (beBytes 4 eprev.hook_data.length)
      = eprev.hook_data.length := fromBe_beBytes4 _ hprev.2.2.2.2
  have hoff : pre.length + (108 + eprev.hook_data.length)
      = (pre ++ encodeElement eprev).length := by
    simp [encodeElement_length eprev hprev]
  obtain ⟨-, -, -, -, r104e, -⟩ :=
    element_reads (pre ++ encodeElement eprev) (encBody rest) e he
  rw [← hassoc] at r104e
  have hfb4e : fromBeBytes (beBytes 4 e.hook_data.length) = e.hook_data.length :=
    fromBe_beBytes4 _ he.2.2.2.2
  have hlen : (pre ++ (encodeElement eprev ++ (encodeElement e ++ encBody rest))).length
      = (pre ++ encodeElement eprev).length
        + ((108 + e.hook_data.length) + (encBody rest).length) := by
    simp only [List.length_append, encodeElement_length e he,
      encodeElement_length eprev hprev]
    omega
  unfold next
  rw [if_neg (by dsimp; omega)]
  dsimp only
  rw [if_pos hidx]
  unfold hook_data_length read_u32
  dsimp only
  rw [r104prev]
  dsimp only
  rw [hfb4prev, hoff]
  rw [if_neg (by omega)]
  rw [if_neg (by omega)]
  rw [r104e]
  dsimp only
  rw [hfb4e]
  rw [if_neg (by omega)]
  by_cases hlast : idx + 1 = n
  · rw [if_pos hlast]
    have hrest0 : rest = [] := by
      cases rest with
      | nil => rfl
      | cons x xs => simp at hn; omega
    subst hrest0
    rw [if_pos (by rw [hlen]; simp), hassoc]
  · rw [if_neg hlast, hassoc]

/-- Draining the iterator from a state whose cursor sits on the consumed
element `eprev` decodes exactly the remaining elements. -/
theorem decode_go (rest : List MintAttestationElementStruct) :
    ∀ (eprev : MintAttestationElementStruct) (pre : List Nat) (idx n : Nat),
    WFElem eprev → (∀ x ∈ rest, WFElem x) → 0 < idx → n = idx + rest.length →
    decodeElements ⟨pre ++ (encodeElement eprev ++ encBody rest), pre.length, idx, n⟩
      (rest.length + 1) = .ok rest := by
  induction rest with
  | nil =>
      intro eprev pre idx n hprev hrest hidx hn
      simp only [List.length_nil] at hn
      unfold decodeElements
      rw [next_exhausted _ (by dsimp; omega)]
  | cons e rest2 ih =>
      intro eprev pre idx n hprev hrest hidx hn
      have hexp := next_expose_from pre eprev e rest2 idx n hprev
        (hrest e (by simp)) hidx (by simp at hn; omega)
      show decodeElements _ (rest2.length + 1 + 1) = _
      unfold decodeElements
      rw [encBody_cons, hexp]
      dsimp only
      rw [readElement_at (pre ++ encodeElement eprev) (encBody rest2) e
        (hrest e (by simp)) (idx + 1) n]
      dsimp only
      rw [ih e (pre ++ encodeElement eprev) (idx + 1) n
        (hrest e (by simp)) (fun x hx => hrest x (by simp [hx])) (by omega)
        (by simp at hn; omega)]

/-- Draining the iterator from a freshly parsed state decodes all encoded
elements. -/
theorem decode_first (header : List Nat) (e : MintAttestationElementStruct)
    (rest : List MintAttestationElementStruct) (n : Nat)
    (hh : header.length = 88) (he : WFElem e)
    (hrest : ∀ x ∈ rest, WFElem x) (hn : n = 1 + rest.length) :
    decodeElements ⟨header ++ encBody (e :: rest), 88, 0, n⟩
      (rest.length + 1 + 1) = .ok (e :: rest) := by
  have hexp := next_expose_first header e rest n hh he hn
  unfold decodeElements
  rw [encBody_cons, hexp]
  dsimp only
  have hre := readElement_at header (encBody rest) e he 1 n
  rw [hh] at hre
  rw [hre]
  dsimp only
  have hgo := decode_go rest e header 1 n he hrest (by omega) (by omega)
  rw [hh] at hgo
  rw [hgo]

/-- Claim C6: encode→decode round trip.  For every representable
`MintAttestationStruct` with at least one element, `MintAttestation::new`
accepts the bytes produced by `encode_attestation`; every decoded header
field (version, destination domain, destination contract, destination
caller, max block height, element count) equals the corresponding input
field; and draining the iterator (which returns `true` exactly
`elements.length` times and then `false`, as witnessed by the fuel
`elements.length + 1`) decodes per-element destination token, destination
recipient, value, transfer spec hash and hook data equal to the input
elements. -/
theorem c6_attestation_roundtrip (s : MintAttestationStruct)
    (hwf : WFStruct s) (hne : s.elements ≠ []) :
    ∃ a, mint_attestation_new (encode_attestation s) = .ok a ∧
      version a = .ok s.version ∧
      destination_domain a = .ok s.destination_domain ∧
      destination_contract a = .ok s.destination_contract ∧
      destination_caller a = .ok s.destination_caller ∧
      max_block_height a = .ok s.max_block_height ∧
      num_attestations a = .ok s.elements.length ∧
      decodeElements a (s.elements.length + 1) = .ok s.elements := by
  obtain ⟨h1, h2, h3, h4, h5, h6, h7⟩ := hwf
  obtain ⟨rm, rv, rd, rc, rcall, rmbh, rnum⟩ :=
    header_reads s ⟨h1, h2, h3, h4, h5, h6, h7⟩
  have hsplit : encode_attestation s
      = (beBytes 4 ATTESTATION_SET_MAGIC ++ beBytes 4 s.version ++
          beBytes 4 s.destination_domain ++ s.destination_contract ++
          s.destination_caller ++ beBytes 8 s.max_block_height ++
          beBytes 4 s.elements.length) ++ encBody s.elements := by
    simp [encode_attestation, encBody, List.append_assoc]
  have hHlen : (beBytes 4 ATTESTATION_SET_MAGIC ++ beBytes 4 s.version ++
      beBytes 4 s.destination_domain ++ s.destination_contract ++
      s.destination_caller ++ beBytes 8 s.max_block_height ++
      beBytes 4 s.elements.length).length = 88 := by
    simp [beBytes_length, h3, h4]
  obtain ⟨e, rest, helems⟩ : ∃ x xs, s.elements = x :: xs := by
    cases hel : s.elements with
    | nil => exact absurd hel hne
    | cons x xs => exact ⟨x, xs, rfl⟩
  have heWF : WFElem e := h7 e (by rw [helems]; simp)
  have hrestWF : ∀ x ∈ rest, WFElem x :=
    fun x hx => h7 x (by rw [helems]; simp [hx])
  have hlenc : (encode_attestation s).length
      = 88 + ((108 + e.hook_data.length) + (encBody rest).length) := by
    rw [hsplit, List.length_append, hHlen, helems, encBody_cons,
      List.length_append, encodeElement_length e heWF]
  have hnew : mint_attestation_new (encode_attestation s)
      = .ok ⟨encode_attestation s, 88, 0, s.elements.length⟩ := by
    unfold mint_attestation_new
    rw [if_neg (by omega)]
    unfold magic num_attestations read_u32
    dsimp only
    rw [rm]
    dsimp only
    rw [fromBe_beBytes4 _ (by norm_num [ATTESTATION_SET_MAGIC])]
    rw [if_neg (by simp)]
    rw [rnum]
    dsimp only
    rw [fromBe_beBytes4 _ h6]
    rw [if_neg (by rw [helems]; simp)]
  refine ⟨⟨encode_attestation s, 88, 0, s.elements.length⟩, hnew,
    ?_, ?_, ?_, ?_, ?_, ?_, ?_⟩
  · unfold version read_u32
    dsimp only
    rw [rv]
    dsimp only
    rw [fromBe_beBytes4 _ h1]
  · unfold destination_domain read_u32
    dsimp only
    rw [rd]
    dsimp only
    rw [fromBe_beBytes4 _ h2]
  · unfold destination_contract read_bytes32
    dsimp only
    rw [rc]
  · unfold destination_caller read_bytes32
    dsimp only
    rw [rcall]
  · unfold max_block_height read_u64
    dsimp only
    rw [rmbh]
    dsimp only
    rw [fromBe_beBytes8 _ h5]
  · unfold num_attestations read_u32
    dsimp only
    rw [rnum]
    dsimp only
    rw [fromBe_beBytes4 _ h6]
  · rw [hsplit, helems]
    have hHlen2 := hHlen
    rw [helems] at hHlen2
    exact decode_first _ e rest (e :: rest).length hHlen2 heWF hrestWF
      (by simp only [List.length_cons]; omega)

/-- Witness for C6 at a concrete input: a one-element attestation set with
3-byte hook data round-trips (the parse succeeds). -/
theorem c6_attestation_roundtrip_witness :
    (mint_attestation_new (encode_attestation
      ⟨1, 2, List.replicate 32 3, List.replicate 32 4, 5,
        [⟨List.replicate 32 6, List.replicate 32 7, 8,
          List.replicate 32 9, [1, 2, 3]⟩]⟩)).toOption.isSome = true := by
  obtain ⟨a, ha, -⟩ := c6_attestation_roundtrip
    ⟨1, 2, List.replicate 32 3, List.replicate 32 4, 5,
      [⟨List.replicate 32 6, List.replicate 32 7, 8,
        List.replicate 32 9, [1, 2, 3]⟩]⟩
    (by
      refine ⟨by norm_num, by norm_num, by simp, by simp, by norm_num,
        by simp, ?_⟩
      intro x hx
      simp only [List.mem_singleton] at hx
      subst hx
      exact ⟨by simp, by simp, by simp, by norm_num, by norm_num⟩)
    (by simp)
  rw [ha]
  rfl

theorem read_u32_ok (a : MintAttestation) (i : Nat)
    (h : i + 4 ≤ a.data.length) : ∃ v, read_u32 a i = .ok v := by
  unfold read_u32
  cases hg : sliceN a.data i 4 with
  | some l => exact ⟨fromBeBytes l, rfl⟩
  | none =>
      have hs := (sliceN_isSome a.data i 4).2 h
      rw [hg] at hs
      simp at hs

theorem hook_data_length_ok (a : MintAttestation)
    (h : a.offset + 108 ≤ a.data.length) : ∃ hl, hook_data_length a = .ok hl := by
  unfold hook_data_length
  exact read_u32_ok a (a.offset + 104) (by omega)

/-- Safety invariant of the iterator: the cursor is inside the buffer, and
once an element has been exposed, its fixed header and hook data lie inside
the buffer (so the next advance stays inside). -/
def Inv (a : MintAttestation) : Prop :=
  a.offset ≤ a.data.length ∧
  (1 ≤ a.index →
    ∃ hl, hook_data_length a = .ok hl ∧ a.offset + (108 + hl) ≤ a.data.length)

theorem new_ok_inv (bytes : List Nat) (a : MintAttestation)
    (h : mint_attestation_new bytes = .ok a) : Inv a := by
  unfold mint_attestation_new at h
  split_ifs at h with hlen
  cases hm : magic ⟨bytes, 0, 0, 0⟩ with
  | error e => rw [hm] at h; simp at h
  | ok m =>
      rw [hm] at h
      dsimp only at h
      split_ifs at h with hmagic
      cases hn : num_attestations ⟨bytes, 0, 0, 0⟩ with
      | error e => rw [hn] at h; simp at h
      | ok n =>
          rw [hn] at h
          dsimp only at h
          split_ifs at h with hzero
          simp only [Except.ok.injEq] at h
          subst h
          exact ⟨by dsimp; omega, by intro hix; simp at hix⟩

theorem new_no_panic (bytes : List Nat) :
    mint_attestation_new bytes ≠ .error .panicOOB := by
  unfold mint_attestation_new
  split_ifs with hlen
  · simp
  · obtain ⟨m, hm⟩ := read_u32_ok ⟨bytes, 0, 0, 0⟩ 0 (by dsimp; omega)
    rw [show magic ⟨bytes, 0, 0, 0⟩ = read_u32 ⟨bytes, 0, 0, 0⟩ 0 from rfl, hm]
    dsimp only
    split_ifs with hmagic
    · simp
    · obtain ⟨n, hn⟩ := read_u32_ok ⟨bytes, 0, 0, 0⟩ 84 (by dsimp; omega)
      rw [show num_attestations ⟨bytes, 0, 0, 0⟩
          = read_u32 ⟨bytes, 0, 0, 0⟩ 84 from rfl, hn]
      dsimp only
      split_ifs <;> simp

/-- One `next` step from an invariant state never panics and preserves the
invariant. -/
theorem next_preserves (a : MintAttestation) (hInv : Inv a) :
    next a ≠ .error .panicOOB ∧
    (∀ b a', next a = .ok (b, a') → Inv a') := by
  obtain ⟨hoff, hidx⟩ := hInv
  unfold next
  by_cases hdone : a.numElements ≤ a.index
  · rw [if_pos hdone]
    refine ⟨by simp, ?_⟩
    intro b a' h
    simp only [Except.ok.injEq, Prod.mk.injEq] at h
    obtain ⟨-, rfl⟩ := h
    exact ⟨hoff, hidx⟩
  · rw [if_neg hdone]
    by_cases hzero : 0 < a.index
    · obtain ⟨hl, hhl, hbound⟩ := hidx hzero
      rw [if_pos hzero, hhl]
      dsimp only
      rw [if_neg (by omega)]
      by_cases hrem : a.data.length - (a.offset + (108 + hl)) < 108
      · rw [if_pos hrem]
        exact ⟨by simp, by intro b a' h; simp at h⟩
      · rw [if_neg hrem]
        obtain ⟨hl2, hhl2⟩ := hook_data_length_ok
          ⟨a.data, a.offset + (108 + hl), a.index + 1, a.numElements⟩
          (by dsimp; omega)
        rw [hhl2]
        dsimp only
        by_cases hrem2 : a.data.length - (a.offset + (108 + hl)) < 108 + hl2
        · rw [if_pos hrem2]
          exact ⟨by simp, by intro b a' h; simp at h⟩
        · rw [if_neg hrem2]
          have hInv2 : Inv ⟨a.data, a.offset + (108 + hl), a.index + 1,
              a.numElements⟩ :=
            ⟨by dsimp; omega, fun _ => ⟨hl2, hhl2, by dsimp; omega⟩⟩
          by_cases hlast : a.index + 1 = a.numElements
          · rw [if_pos hlast]
            by_cases heq : a.offset + (108 + hl) + (108 + hl2) = a.data.length
            · rw [if_pos heq]
              refine ⟨by simp, ?_⟩
              intro b a' h
              simp only [Except.ok.injEq, Prod.mk.injEq] at h
              obtain ⟨-, rfl⟩ := h
              exact hInv2
            · rw [if_neg heq]
              exact ⟨by simp, by intro b a' h; simp at h⟩
          · rw [if_neg hlast]
            refine ⟨by simp, ?_⟩
            intro b a' h
            simp only [Except.ok.injEq, Prod.mk.injEq] at h
            obtain ⟨-, rfl⟩ := h
            exact hInv2
    · rw [if_neg hzero]
      dsimp only
      rw [if_neg (by omega)]
      by_cases hrem : a.data.length - a.offset < 108
      · rw [if_pos hrem]
        exact ⟨by simp, by intro b a' h; simp at h⟩
      · rw [if_neg hrem]
        obtain ⟨hl2, hhl2⟩ := hook_data_length_ok
          ⟨a.data, a.offset, a.index + 1, a.numElements⟩ (by dsimp; omega)
        rw [hhl2]
        dsimp only
        by_cases hrem2 : a.data.length - a.offset < 108 + hl2
        · rw [if_pos hrem2]
          exact ⟨by simp, by intro b a' h; simp at h⟩
        · rw [if_neg hrem2]
          have hInv2 : Inv ⟨a.data, a.offset, a.index + 1, a.numElements⟩ :=
            ⟨by dsimp; omega, fun _ => ⟨hl2, hhl2, by dsimp; omega⟩⟩
          by_cases hlast : a.index + 1 = a.numElements
          · rw [if_pos hlast]
            by_cases heq : a.offset + (108 + hl2) = a.data.length
            · rw [if_pos heq]
              refine ⟨by simp, ?_⟩
              intro b a' h
              simp only [Except.ok.injEq, Prod.mk.injEq] at h
              obtain ⟨-, rfl⟩ := h
              exact hInv2
            · rw [if_neg heq]
              exact ⟨by simp, by intro b a' h; simp at h⟩
          · rw [if_neg hlast]
            refine ⟨by simp, ?_⟩
            intro b a' h
            simp only [Except.ok.injEq, Prod.mk.injEq] at h
            obtain ⟨-, rfl⟩ := h
            exact hInv2

/-- Iterating `next` any number of times from a parse result never reaches
the panic marker. -/
theorem nextIter_no_panic (bytes : List Nat) (k : Nat) :
    nextIter (mint_attestation_new bytes) k ≠ .error .panicOOB := by
  suffices h : ∀ (k : Nat) (s : Except MErr MintAttestation),
      (s ≠ .error .panicOOB ∧ ∀ a, s = .ok a → Inv a) →
      nextIter s k ≠ .error .panicOOB by
    refine h k (mint_attestation_new bytes) ⟨new_no_panic bytes, ?_⟩
    intro a ha
    exact new_ok_inv bytes a ha
  intro k
  induction k with
  | zero => intro s hs; exact hs.1
  | succ k ih =>
      intro s hs
      show nextIter _ k ≠ _
      refine ih _ ?_
      cases s with
      | error e =>
          exact ⟨hs.1, by intro a ha; simp at ha⟩
      | ok a =>
          have hInv := hs.2 a rfl
          have hstep := next_preserves a hInv
          cases hn : next a with
          | error e =>
              refine ⟨?_, by intro a' ha'; simp [hn] at ha'⟩
              rw [hn] at hstep
              simpa [hn] using hstep.1
          | ok r =>
              refine ⟨by simp [hn], ?_⟩
              intro a' ha'
              simp only [hn, Except.ok.injEq] at ha'
              subst ha'
              exact hstep.2 r.1 r.2 (by rw [hn])

end GatewayMinter

/-! ## BurnData parser (claim C9, `programs/gateway-wallet/src/burn_data.rs`) -/

namespace GatewayWallet

/-- `BurnData::read_u32` (big-endian); an out-of-range slice would panic. -/
def bd_read_u32 (data : List Nat) (i : Nat) : Except WErr Nat :=
  match sliceN data i 4 with
  | some l => .ok (fromBeBytes l)
  | none => .error .panicOOB

/-- `BurnData::read_u64_with_data_offset` (`burn_data.rs`): require the
`dataOffset` high bytes to be zero (the u256→u64 narrowing rule), then read
the 8-byte big-endian value. -/
def bd_read_u64_with_data_offset (data : List Nat) (i dataOffset : Nat) :
    Except WErr Nat :=
  match sliceN data i dataOffset with
  | none => .error .panicOOB
  | some high =>
    if high.all (fun x => decide (x = 0)) then
      match sliceN data (i + dataOffset) 8 with
      | some l => .ok (fromBeBytes l)
      | none => .error .panicOOB
    else
      .error .invalidU64HighBytes

/-- `BurnData::BURN_INTENT_MESSAGE_PREFIX`: `0xff` followed by 15 zero
bytes. -/
def BURN_INTENT_MESSAGE_PREFIX_BYTES : List Nat :=
  [255, 0, 0, 0, 0, 0, 0, 0, 0, 0, 0, 0, 0, 0, 0, 0]

/-- `BurnData::new` (`burn_data.rs` lines 122-179): require at least
`TS_HOOK_DATA_OFFSET = 500` bytes, check the 16-byte message prefix at
offset 72, the BurnIntent magic `0x070afbc2` at 88 and the TransferSpec
magic `0xca85def7` at 160, require the buffer length to be exactly
`500 + hook_data_length` (read at 496), require the transfer spec length
(read at 156) to equal `(500 - 160) + hook_data_length = 340 +
hook_data_length`, and require a nonzero value (u256→u64 narrowed, read at
432 with 24 zero high bytes).  Returns the validated buffer. -/
def burn_data_new (messageBytes : List Nat) : Except WErr (List Nat) :=
  if messageBytes.length < 500 then
    .error .burnIntentLengthMismatch
  else
    match sliceN messageBytes 72 16 with
    | none => .error .panicOOB
    | some p16 =>
      if p16 ≠ BURN_INTENT_MESSAGE_PREFIX_BYTES then
        .error .invalidBurnIntentMessagePrefixErr
      else
        match bd_read_u32 messageBytes 88 with
        | .error e => .error e
        | .ok m =>
          if m ≠ 0x070afbc2 then
            .error .burnIntentMagicMismatch
          else
            match bd_read_u32 messageBytes 160 with
            | .error e => .error e
            | .ok tm =>
              if tm ≠ 0xca85def7 then
                .error .transferSpecMagicMismatch
              else
                match bd_read_u32 messageBytes 496 with
                | .error e => .error e
                | .ok hl =>
                  if messageBytes.length ≠ 500 + hl then
                    .error .burnIntentLengthMismatch
                  else
                    match bd_read_u32 messageBytes 156 with
                    | .error e => .error e
                    | .ok tsl =>
                      if 340 + hl ≠ tsl then
                        .error .burnIntentLengthMismatch
                      else
                        match bd_read_u64_with_data_offset messageBytes 432 24 with
                        | .error e => .error e
                        | .ok v =>
                          if v = 0 then
                            .error .invalidBurnIntentValue
                          else
                            .ok messageBytes

/-- `BurnData::new` never reaches an out-of-bounds slice access: after the
initial 500-byte length requirement, every read lies inside the first 500
bytes. -/
theorem burn_data_new_no_panic (bytes : List Nat) :
    burn_data_new bytes ≠ .error .panicOOB := by
  unfold burn_data_new bd_read_u32 bd_read_u64_with_data_offset
  split_ifs with hlen
  · simp
  · have hget : ∀ i n, i + n ≤ 500 → ∃ l, sliceN bytes i n = some l := by
      intro i n h
      cases hg : sliceN bytes i n with
      | some l => exact ⟨l, rfl⟩
      | none =>
          have hs := (sliceN_isSome bytes i n).2 (by omega)
          rw [hg] at hs
          simp at hs
    obtain ⟨l72, h72⟩ := hget 72 16 (by omega)
    obtain ⟨l88, h88⟩ := hget 88 4 (by omega)
    obtain ⟨l160, h160⟩ := hget 160 4 (by omega)
    obtain ⟨l496, h496⟩ := hget 496 4 (by omega)
    obtain ⟨l156, h156⟩ := hget 156 4 (by omega)
    obtain ⟨l432, h432⟩ := hget 432 24 (by omega)
    obtain ⟨l456, h456⟩ := hget 456 8 (by omega)
    rw [h72, h88, h160, h496, h156, h432]
    dsimp only
    rw [show (432 : Nat) + 24 = 456 from rfl, h456]
    split_ifs <;> (try simp) <;> (split_ifs <;> simp)

end GatewayWallet

/-- Claim C9: parsing never panics on attacker-controlled input.  For every
byte buffer (including buffers truncated at any byte boundary inside an
element), `MintAttestation::new` followed by any number of `next` calls
(driven as the `while attestation.next()?` loop drives them, with errors
propagating) never reaches an out-of-bounds slice access or an underflowing
subtraction — each such hazard is modelled by the distinguished `panicOOB`
error marker, which is proved unreachable — and likewise `BurnData::new`
returns `Ok` or a typed error but never the panic marker. -/
theorem c9_parsing_no_panic (bytes : List Nat) (k : Nat) :
    GatewayMinter.nextIter (GatewayMinter.mint_attestation_new bytes) k ≠
      .error .panicOOB ∧
    GatewayWallet.burn_data_new bytes ≠ .error .panicOOB :=
  ⟨GatewayMinter.nextIter_no_panic bytes k,
   GatewayWallet.burn_data_new_no_panic bytes⟩
